import Mathlib

/-!
Verification of the HTML-to-Markdown transform pipeline (src/html-transform.ts).

The pipeline is embedded shallowly over `List Char`:
strings are lists of Unicode scalar values, JavaScript regular-expression
passes become explicit recursive scanners with the same backtracking
semantics, and the external `turndown` renderer (a third-party npm
dependency, not part of this repository) is an abstract fallible function
`Renderer`.  The configuration applied to that renderer that lives in this
repository (the `optimizeLinks` replacement rule) is embedded directly.
-/

namespace HtmlTransform

/-- ASCII lower-casing, as performed by case-insensitive (`/i`) regex
matching on the ASCII letters used in the source patterns. -/
def lower (c : Char) : Char :=
  if 65 ≤ c.toNat && c.toNat ≤ 90 then Char.ofNat (c.toNat + 32) else c

/-- The JavaScript regex class `\s` (also the character set removed by
`String.prototype.trim`): tab, LF, VT, FF, CR, space, NBSP, Ogham space
mark, the U+2000..U+200A spaces, LS, PS, narrow NBSP, medium mathematical
space, ideographic space, and the BOM. -/
def isJsWhitespace (c : Char) : Bool :=
  let n := c.toNat
  n = 9 || n = 10 || n = 11 || n = 12 || n = 13 || n = 32 ||
  n = 0xA0 || n = 0x1680 || (0x2000 ≤ n && n ≤ 0x200A) ||
  n = 0x2028 || n = 0x2029 || n = 0x202F || n = 0x205F ||
  n = 0x3000 || n = 0xFEFF

/-- The Unicode space-separator category Zs, matched by `\p{Zs}` in the
source: space, NBSP, Ogham space mark, U+2000..U+200A, narrow NBSP,
medium mathematical space, ideographic space. -/
def isZs (c : Char) : Bool :=
  let n := c.toNat
  n = 32 || n = 0xA0 || n = 0x1680 || (0x2000 ≤ n && n ≤ 0x200A) ||
  n = 0x202F || n = 0x205F || n = 0x3000

/-- ASCII whitespace: tab, LF, VT, FF, CR and the space, as used by the
specification's phrase "ASCII whitespace". -/
def isAsciiWhitespace (c : Char) : Bool :=
  let n := c.toNat
  n = 9 || n = 10 || n = 11 || n = 12 || n = 13 || n = 32

/-- The Unicode format category Cf, matched by `\p{Cf}` in the source
(soft hyphen, Arabic formatting signs, Mongolian vowel separator,
zero-width and directional controls, BOM, interlinear annotation
controls, and the remaining format-control blocks). -/
def isCf (c : Char) : Bool :=
  let n := c.toNat
  n = 0xAD || (0x600 ≤ n && n ≤ 0x605) || n = 0x61C || n = 0x6DD ||
  n = 0x70F || (0x890 ≤ n && n ≤ 0x891) || n = 0x8E2 || n = 0x180E ||
  (0x200B ≤ n && n ≤ 0x200F) || (0x202A ≤ n && n ≤ 0x202E) ||
  (0x2060 ≤ n && n ≤ 0x2064) || (0x2066 ≤ n && n ≤ 0x206F) ||
  n = 0xFEFF || (0xFFF9 ≤ n && n ≤ 0xFFFB) ||
  n = 0x110BD || n = 0x110CD || (0x13430 ≤ n && n ≤ 0x1343F) ||
  (0x1BCA0 ≤ n && n ≤ 0x1BCA3) || (0x1D173 ≤ n && n ≤ 0x1D17A) ||
  n = 0xE0001 || (0xE0020 ≤ n && n ≤ 0xE007F)

/-- Case-insensitive anchored match: does `s` start with the (already
lower-case) literal pattern `p`?  Mirrors matching a literal under the
`/i` flag. -/
def startsWithCI : List Char → List Char → Bool
  | [], _ => true
  | _ :: _, [] => false
  | p :: ps, c :: cs => (lower c = p) && startsWithCI ps cs

/-- Remove all Unicode format characters (the `\p{Cf}` pass) and then the
combining grapheme joiner U+034F, exactly as `removeInvisibleChars` does
with its two global character-class replaces. -/
def removeInvisibleChars (text : List Char) : List Char :=
  (text.filter (fun c => !isCf c)).filter (fun c => decide (c.toNat ≠ 0x34F))

/-- Left trim: drop the `String.prototype.trim` whitespace set from the
front. -/
def trimLeft (l : List Char) : List Char := l.dropWhile isJsWhitespace

/-- Right trim: drop the `String.prototype.trim` whitespace set from the
back. -/
def trimRight : List Char → List Char
  | [] => []
  | c :: rest =>
    match trimRight rest with
    | [] => if isJsWhitespace c then [] else [c]
    | r => c :: r

/-- JavaScript `String.prototype.trim`: drop leading and trailing
whitespace. -/
def trimStr (l : List Char) : List Char := trimRight (trimLeft l)

/-- Replace every maximal run matched by `/\p{Zs}/gu` with a space; a
single-character class replace is a character map. -/
def zsToSpace (l : List Char) : List Char :=
  l.map (fun c => if isZs c then ' ' else c)

/-- Space or tab, the class `[ \t]`. -/
def isSpaceTab (c : Char) : Bool := c = ' ' || c = '\t'

/-- The per-line pass `line.replace(/[ \t]+/g, ' ')`: every maximal run
of spaces and tabs becomes one space.  Written one character at a time:
within a run every character but the last is dropped and the last is
rendered as a space, which replaces each maximal `[ \t]+` run by a
single space. -/
def collapseSpaceTab : List Char → List Char
  | [] => []
  | [c] => if isSpaceTab c then [' '] else [c]
  | c :: d :: rest =>
    if isSpaceTab c && isSpaceTab d then collapseSpaceTab (d :: rest)
    else (if isSpaceTab c then ' ' else c) :: collapseSpaceTab (d :: rest)

/-- The final pass `output.replace(/ {2,}/g, ' ')`: every maximal run of
two or more spaces becomes one space (a run of one space matches nothing
and is likewise left as one space, so every maximal space run ends up as
a single space).  Written one character at a time: a space followed by a
space is dropped, which keeps exactly one space per maximal run. -/
def collapse2Spaces : List Char → List Char
  | [] => []
  | [c] => [c]
  | c :: d :: rest =>
    if c = ' ' && d = ' ' then collapse2Spaces (d :: rest)
    else c :: collapse2Spaces (d :: rest)

/-- JavaScript `text.split('\n')`: split on every newline, keeping empty
pieces; the empty string splits to one empty piece. -/
def splitLines : List Char → List (List Char)
  | [] => [[]]
  | c :: rest =>
    if c = '\n' then [] :: splitLines rest
    else
      match splitLines rest with
      | [] => [[c]]
      | l :: ls => (c :: l) :: ls

/-- JavaScript `lines.join('\n')`. -/
def joinLines : List (List Char) → List Char
  | [] => []
  | [l] => l
  | l :: l2 :: ls => l ++ '\n' :: joinLines (l2 :: ls)

/-- Step 3 of `normalizeWhitespace`: keep nonempty lines, and keep an
empty line only when the previous kept line was nonempty; the flag starts
true so leading empty lines are dropped. -/
def dropBlanks : List (List Char) → Bool → List (List Char)
  | [], _ => []
  | l :: ls, prevEmpty =>
    if l = [] then
      if prevEmpty then dropBlanks ls true else [] :: dropBlanks ls true
    else l :: dropBlanks ls false

/-- The per-line processing in step 2 of `normalizeWhitespace`: collapse
space/tab runs, then trim the line. -/
def processLine (l : List Char) : List Char := trimStr (collapseSpaceTab l)

/-- The whole `normalizeWhitespace` function: unify Zs to spaces, process
line by line, suppress blank-line runs, join, collapse remaining space
runs and trim. -/
def normalizeWhitespace (text : List Char) : List Char :=
  trimStr (collapse2Spaces (joinLines
    (dropBlanks ((splitLines (zsToSpace text)).map processLine) true)))

/-- A hexadecimal digit's value, as used by percent-decoding. -/
def hexVal (c : Char) : Option Nat :=
  let n := c.toNat
  if 48 ≤ n && n ≤ 57 then some (n - 48)
  else if 65 ≤ n && n ≤ 70 then some (n - 55)
  else if 97 ≤ n && n ≤ 102 then some (n - 87)
  else none

/-- Is `b` a UTF-8 continuation byte (0x80..0xBF)? -/
def isCont (b : Nat) : Bool := 0x80 ≤ b && b ≤ 0xBF

/-- Second-byte constraint for a three-byte UTF-8 sequence with leading
byte `b` (rules out overlong encodings and surrogates, as the strict
decoder used by `decodeURIComponent` does). -/
def cont3ok (b b2 : Nat) : Bool :=
  if b = 0xE0 then 0xA0 ≤ b2 && b2 ≤ 0xBF
  else if b = 0xED then 0x80 ≤ b2 && b2 ≤ 0x9F
  else isCont b2

/-- Second-byte constraint for a four-byte UTF-8 sequence with leading
byte `b` (rules out overlong encodings and code points above U+10FFFF). -/
def cont4ok (b b2 : Nat) : Bool :=
  if b = 0xF0 then 0x90 ≤ b2 && b2 ≤ 0xBF
  else if b = 0xF4 then 0x80 ≤ b2 && b2 ≤ 0x8F
  else isCont b2

/-- JavaScript `decodeURIComponent`: replace each `%XX` escape by its
byte and strictly UTF-8-decode the byte sequences; any malformed escape
or invalid byte sequence makes the whole call throw, modelled as `none`.
Characters other than `%` pass through unchanged. -/
def decodePercent : List Char → Option (List Char)
  | [] => some []
  | '%' :: a1 :: a2 :: rest =>
    (match hexVal a1, hexVal a2 with
     | some x, some y =>
       let b := 16 * x + y
       if b < 0x80 then
         match decodePercent rest with
         | some d => some (Char.ofNat b :: d)
         | none => none
       else if 0xC2 ≤ b && b ≤ 0xDF then
         match rest with
         | '%' :: a3 :: a4 :: rest2 =>
           (match hexVal a3, hexVal a4 with
            | some x2, some y2 =>
              let b2 := 16 * x2 + y2
              if isCont b2 then
                match decodePercent rest2 with
                | some d => some (Char.ofNat ((b - 0xC0) * 0x40 + (b2 - 0x80)) :: d)
                | none => none
              else none
            | _, _ => none)
         | _ => none
       else if 0xE0 ≤ b && b ≤ 0xEF then
         match rest with
         | '%' :: a3 :: a4 :: '%' :: a5 :: a6 :: rest2 =>
           (match hexVal a3, hexVal a4, hexVal a5, hexVal a6 with
            | some x2, some y2, some x3, some y3 =>
              let b2 := 16 * x2 + y2
              let b3 := 16 * x3 + y3
              if cont3ok b b2 && isCont b3 then
                match decodePercent rest2 with
                | some d =>
                  some (Char.ofNat ((b - 0xE0) * 0x1000 + (b2 - 0x80) * 0x40 + (b3 - 0x80)) :: d)
                | none => none
              else none
            | _, _, _, _ => none)
         | _ => none
       else if 0xF0 ≤ b && b ≤ 0xF4 then
         match rest with
         | '%' :: a3 :: a4 :: '%' :: a5 :: a6 :: '%' :: a7 :: a8 :: rest2 =>
           (match hexVal a3, hexVal a4, hexVal a5, hexVal a6, hexVal a7, hexVal a8 with
            | some x2, some y2, some x3, some y3, some x4, some y4 =>
              let b2 := 16 * x2 + y2
              let b3 := 16 * x3 + y3
              let b4 := 16 * x4 + y4
              if cont4ok b b2 && isCont b3 && isCont b4 then
                match decodePercent rest2 with
                | some d =>
                  some (Char.ofNat ((b - 0xF0) * 0x40000 + (b2 - 0x80) * 0x1000 +
                    (b3 - 0x80) * 0x40 + (b4 - 0x80)) :: d)
                | none => none
              else none
            | _, _, _, _, _, _ => none)
         | _ => none
       else none
     | _, _ => none)
  | '%' :: _ => none
  | c :: rest =>
    match decodePercent rest with
    | some d => some (c :: d)
    | none => none

/-- The class `[a-z0-9]` under the `/i` flag: an ASCII letter or digit. -/
def isAlnumCI (c : Char) : Bool :=
  (97 ≤ (lower c).toNat && (lower c).toNat ≤ 122) ||
  (48 ≤ c.toNat && c.toNat ≤ 57)

/-- The literal middle part of the Safe Links pattern. -/
def safeLinkLit : List Char := (".safelinks.protection.outlook.com/?url=".toList)

/-- A character allowed in the optional trailing group `[^\s)>\]]`. -/
def isTailChar (c : Char) : Bool :=
  !isJsWhitespace c && c ≠ ')' && c ≠ '>' && c ≠ ']'

/-- Length of the optional greedy tail `(?:&[^\s)>\]]*)?`: taken
exactly when an `&` follows the capture. -/
def slmTailLen (s6 : List Char) : Nat :=
  match s6 with
  | '&' :: t => 1 + (t.takeWhile isTailChar).length
  | _ => 0

/-- Last stage of the Safe Links match: the nonempty capture
`([^&]+)` and the optional tail.  `s6` is the text after the capture;
the returned count totals all parts after the leading `http` literal. -/
def slmTail (n2 : Nat) (host cap : List Char) (s6 : List Char) : Option (Nat × List Char) :=
  if cap.isEmpty then none
  else
    some (n2 + 3 + host.length + safeLinkLit.length + cap.length + slmTailLen s6, cap)

/-- Middle stage of the Safe Links match: the nonempty greedy host run
`[a-z0-9]+` (a shorter run would be followed by an alnum character,
not the `.` the literal needs, so the maximal run is the only
candidate) followed by the host/path literal; `s4` is the text after
the host run. -/
def slmCap (n2 : Nat) (host : List Char) (s4 : List Char) : Option (Nat × List Char) :=
  if host.isEmpty then none
  else if startsWithCI safeLinkLit s4 then
    slmTail n2 host ((s4.drop safeLinkLit.length).takeWhile (fun c => c ≠ '&'))
      ((s4.drop safeLinkLit.length).drop
        (((s4.drop safeLinkLit.length).takeWhile (fun c => c ≠ '&')).length))
  else none

/-- Scheme-tail stage of the Safe Links match: the literal `://`, then
the host stage on the rest. -/
def slmHost (n2 : Nat) (s2 : List Char) : Option (Nat × List Char) :=
  if startsWithCI ([':', '/', '/']) s2 then
    slmCap n2 ((s2.drop 3).takeWhile isAlnumCI)
      ((s2.drop 3).drop (((s2.drop 3).takeWhile isAlnumCI).length))
  else none

/-- The optional `s?` after `http` (case-insensitive, greedy; if the
`s` is present but not followed by `://` the alternative without it
cannot match either, since `s` is not `:`): the number of characters it
consumes. -/
def slmHasS (s1 : List Char) : Nat :=
  match s1 with
  | c :: _ => if lower c = 's' then 1 else 0
  | [] => 0

/-- Try to match the Safe Links regex
`https?://[a-z0-9]+.safelinks.protection.outlook.com/?url=([^&]+)(?:&[^\s)>\]]*)?`
(the dots and question mark of the host literal are escaped in the
source) at the start of `s`.  The greedy pieces are deterministic, so
the stages compose without backtracking.  On success returns
`(k, capture)` where `k + 4` characters were consumed (the leading
literal `http` accounts for the 4). -/
def safeLinkMatchAt (s : List Char) : Option (Nat × List Char) :=
  if startsWithCI (['h', 't', 't', 'p']) s then
    slmHost (slmHasS (s.drop 4)) ((s.drop 4).drop (slmHasS (s.drop 4)))
  else none

/-- Fuelled worker for `unwrapSafeLinks`: scan left to right; at each
match of the Safe Links pattern emit the percent-decoded capture, or the
whole matched substring unchanged when decoding fails, and continue
scanning after the match; characters outside matches pass through.  The
fuel only bounds the recursion; every step consumes at least one
character, so fuel `l.length` never runs out. -/
def unwrapSafeLinksF : Nat → List Char → List Char
  | _, [] => []
  | 0, l => l
  | fuel + 1, c :: rest =>
    match safeLinkMatchAt (c :: rest) with
    | some (k, cap) =>
      (match decodePercent cap with
       | some d => d
       | none => c :: rest.take (3 + k)) ++ unwrapSafeLinksF fuel (rest.drop (3 + k))
    | none => c :: unwrapSafeLinksF fuel rest

/-- The `unwrapSafeLinks` pass of the source. -/
def unwrapSafeLinks (l : List Char) : List Char := unwrapSafeLinksF l.length l

/-- A single or double quote, the class `["']`. -/
def isQuoteC (c : Char) : Bool := c = '"' || c = '\''

/-- Try to match `\s attr = ["'] ([^"']+) ["']` at the start of `s`
(the suffix of the media-element patterns after the greedy `[^>]*`).
The capture is deterministic: it is the maximal run without quotes, and
must be nonempty and followed by a quote.  Returns the capture and the
number of characters consumed, namely `attr.length + capture.length + 4`. -/
def matchAttr (attr : List Char) (s : List Char) : Option (List Char × Nat) :=
  match s with
  | [] => none
  | c :: s1 =>
    if isJsWhitespace c then
      if startsWithCI (attr ++ ['=']) s1 then
        match s1.drop (attr.length + 1) with
        | q :: s3 =>
          if isQuoteC q then
            if (s3.takeWhile (fun d => !isQuoteC d)).isEmpty then none
            else
              match s3.drop (s3.takeWhile (fun d => !isQuoteC d)).length with
              | q2 :: _ =>
                if isQuoteC q2 then
                  some (s3.takeWhile (fun d => !isQuoteC d),
                    attr.length + (s3.takeWhile (fun d => !isQuoteC d)).length + 4)
                else none
              | [] => none
          else none
        | [] => none
      else none
    else none

/-- Case-insensitive first occurrence of the (lower-case) literal `pat`
in `s`, as the lazy `[\s\S]*?` before a literal finds it: returns the
part before the occurrence and the part after it. -/
def splitAtPatCI (pat : List Char) : List Char → Option (List Char × List Char)
  | [] => if pat.isEmpty then some ([], []) else none
  | c :: rest =>
    if startsWithCI pat (c :: rest) then some ([], (c :: rest).drop pat.length)
    else
      match splitAtPatCI pat rest with
      | some (pre, post) => some (c :: pre, post)
      | none => none

/-- Close a paired-form media match: the greedy `[^>]*` runs to the first
`>` (it cannot cross one, and a shorter choice would put a non-`>`
character where the literal `>` must match), then the lazy `[\s\S]*?`
runs to the first occurrence of the closing tag.  Returns the number of
characters consumed from `r`. -/
def closeA (tag : List Char) (r : List Char) : Option Nat :=
  match r.dropWhile (fun c => c ≠ '>') with
  | _ :: r2 =>
    match splitAtPatCI ('<' :: '/' :: tag ++ ['>']) r2 with
    | some (pre, _) =>
      some ((r.takeWhile (fun c => c ≠ '>')).length + 1 + pre.length + (tag.length + 3))
    | none => none
  | [] => none

/-- Close a self-closing-form media match: `[^>]*\/?>` consumes up to and
including the first `>` (a `/` right before it is inside the `[^>]*`
run, so the optional `\/` matches empty).  Returns the number of
characters consumed from `r`. -/
def closeB (r : List Char) : Option Nat :=
  match r.dropWhile (fun c => c ≠ '>') with
  | _ :: _ => some ((r.takeWhile (fun c => c ≠ '>')).length + 1)
  | [] => none

/-- Backtracking search for the greedy `[^>]*` before `\sattr=`: try the
longest prefix first (index `k` descending), and for each success of the
attribute part try the closing part, falling back to a shorter prefix on
failure, exactly as the regex engine backtracks.  On success returns the
capture and the number of characters consumed from `s`. -/
def searchX (attr : List Char) (close : List Char → Option Nat) (s : List Char) :
    Nat → Option (List Char × Nat)
  | 0 =>
    (match matchAttr attr s with
     | some (cap, n) =>
       match close (s.drop n) with
       | some m => some (cap, n + m)
       | none => none
     | none => none)
  | k + 1 =>
    match matchAttr attr (s.drop (k + 1)) with
    | some (cap, n) =>
      (match close ((s.drop (k + 1)).drop n) with
       | some m => some (cap, (k + 1) + n + m)
       | none => searchX attr close s k)
    | none => searchX attr close s k

/-- Try to match one media-element pattern at the start of `s`: the
literal `<tag` (case-insensitive), then the backtracking search for
`[^>]*\sattr=["']([^"']+)["']` followed by the paired or self-closing
closing part.  The `[^>]*` candidates are the prefixes of the maximal
run without `>`.  On success returns the capture and `k` such that the
whole match consumed `tag.length + 1 + k` characters of `s`. -/
def matchTagAt (tag attr : List Char) (paired : Bool) (s : List Char) :
    Option (List Char × Nat) :=
  if startsWithCI ('<' :: tag) s then
    searchX attr (if paired then closeA tag else closeB) (s.drop (tag.length + 1))
      ((s.drop (tag.length + 1)).takeWhile (fun c => c ≠ '>')).length
  else none

/-- Fuelled worker for one global regex replace of a media-element
pattern by `<p>$1</p>`: scan left to right, replace each leftmost match
and continue after it.  The fuel only bounds the recursion; every step
consumes at least one character, so fuel `l.length` never runs out. -/
def replaceTagF (tag attr : List Char) (paired : Bool) : Nat → List Char → List Char
  | _, [] => []
  | 0, l => l
  | fuel + 1, c :: rest =>
    match matchTagAt tag attr paired (c :: rest) with
    | some (cap, k) =>
      '<' :: 'p' :: '>' ::
        (cap ++ '<' :: '/' :: 'p' :: '>' ::
          replaceTagF tag attr paired fuel (rest.drop (tag.length + k)))
    | none => c :: replaceTagF tag attr paired fuel rest

/-- One global regex replace of a media-element pattern, as one
`html.replace(...)` step of `extractMediaUrls`. -/
def replaceTag (tag attr : List Char) (paired : Bool) (l : List Char) : List Char :=
  replaceTagF tag attr paired l.length l

/-- The `extractMediaUrls` pre-processing pass: the nine chained regex
replaces of the source, in source order (iframe paired and self-closing,
object paired and self-closing, embed self-closing, video paired and
self-closing, audio paired and self-closing). -/
def extractMediaUrls (html : List Char) : List Char :=
  replaceTag ("audio".toList) ("src".toList) false
    (replaceTag ("audio".toList) ("src".toList) true
      (replaceTag ("video".toList) ("src".toList) false
        (replaceTag ("video".toList) ("src".toList) true
          (replaceTag ("embed".toList) ("src".toList) false
            (replaceTag ("object".toList) ("data".toList) false
              (replaceTag ("object".toList) ("data".toList) true
                (replaceTag ("iframe".toList) ("src".toList) false
                  (replaceTag ("iframe".toList) ("src".toList) true html))))))))

/-- Case-sensitive anchored match: does `s` start with the literal `p`? -/
def startsWithExact : List Char → List Char → Bool
  | [], _ => true
  | _ :: _, [] => false
  | p :: ps, c :: cs => (c = p) && startsWithExact ps cs

/-- Strip a leading scheme as `href.replace(/^https?:\/\//, '')` does
(case-sensitive, first occurrence only, anchored). -/
def stripScheme (s : List Char) : List Char :=
  if startsWithExact (("https://".toList)) s then s.drop 8
  else if startsWithExact (("http://".toList)) s then s.drop 7
  else s

/-- The `optimizeLinks` turndown rule's replacement function: given the
already-rendered inner content and the `href` attribute (`none` when the
attribute is absent), return the Markdown for the anchor.  The source's
`if (!href) return content` is a falsiness test, taken both when
`getAttribute` returns `null` (attribute absent) and when the attribute
value is the empty string. -/
def optimizeLinks (content : List Char) (href : Option (List Char)) : List Char :=
  match href with
  | none => content
  | some h =>
    if h.isEmpty then content
    else if trimStr content = h || trimStr content = stripScheme h then h
    else '[' :: trimStr content ++ ']' :: '(' :: (h ++ [')'])

/-- A JavaScript value as far as `htmlToMarkdown`'s input check can
distinguish it: the guard `!html || typeof html !== 'string'` returns
the argument unchanged unless it is a nonempty string. -/
inductive JSValue where
  | jsNull : JSValue
  | jsUndefined : JSValue
  | jsBool : Bool → JSValue
  | jsNum : Int → JSValue
  | jsStr : List Char → JSValue
deriving DecidableEq

/-- The external HTML-to-Markdown renderer (`turndown.turndown`), a
third-party library: an abstract function that either produces a
Markdown string or throws. -/
def Renderer : Type := List Char → Except Unit (List Char)

/-- The body of `htmlToMarkdown` on a nonempty string: run the pipeline
inside the try block; the only stage that can throw is the renderer
(the pre- and post-processing passes are total string transforms, and
the one throwing operation inside `unwrapSafeLinks` is caught locally),
and on a throw the catch returns the original input. -/
def htmlToMarkdownStr (render : Renderer) (html : List Char) : List Char :=
  match render (extractMediaUrls html) with
  | Except.ok md => normalizeWhitespace (removeInvisibleChars (unwrapSafeLinks md))
  | Except.error _ => html

/-- The exported `htmlToMarkdown`: non-strings and the empty string are
returned unchanged by the initial guard; a nonempty string runs the
pipeline with the fallback. -/
def htmlToMarkdown (render : Renderer) (v : JSValue) : JSValue :=
  match v with
  | JSValue.jsStr s =>
    if s.isEmpty then JSValue.jsStr s else JSValue.jsStr (htmlToMarkdownStr render s)
  | other => other

/-- Is every run of consecutive characters satisfying `p` in `l` shorter
than `b`, assuming a run of length `r` is already open on entry? -/
def runBounded (p : Char → Bool) (b : Nat) : List Char → Nat → Bool
  | [], _ => true
  | c :: rest, r =>
    if p c then decide (r + 1 < b) && runBounded p b rest (r + 1)
    else runBounded p b rest 0

/-- No two consecutive ASCII spaces anywhere in `l`. -/
def noDoubleSpace (l : List Char) : Bool := runBounded (fun c => c = ' ') 2 l 0

/-- No three consecutive newlines anywhere in `l`. -/
def noTripleNewline (l : List Char) : Bool := runBounded (fun c => c = '\n') 3 l 0

/-- Is the first element of a list of lines (if any) a nonempty line? -/
def headNonEmpty : List (List Char) → Bool
  | [] => true
  | l :: _ => !l.isEmpty

/-- No two adjacent empty lines in a list of lines. -/
def noAdjEmpty : List (List Char) → Bool
  | [] => true
  | l :: ls => (!l.isEmpty || headNonEmpty ls) && noAdjEmpty ls

/-- Is the first character (if any) not trim-whitespace? -/
def headOKC : List Char → Bool
  | [] => true
  | c :: _ => !isJsWhitespace c

/-- Is the last character (if any) not trim-whitespace? -/
def lastOK : List Char → Bool
  | [] => true
  | [c] => !isJsWhitespace c
  | _ :: d :: rest => lastOK (d :: rest)

/-- Is the last line (if any) nonempty? -/
def lastNonEmpty : List (List Char) → Bool
  | [] => true
  | [l] => !l.isEmpty
  | _ :: l2 :: ls => lastNonEmpty (l2 :: ls)

/-- A fully normalized line: no newline, no tab, no space-separator
other than the ASCII space, no double space, and trimmed at both ends. -/
def goodLine (l : List Char) : Bool :=
  l.all (fun c => c ≠ '\n' && c ≠ '\t' && (!isZs c || c = ' ')) &&
  noDoubleSpace l && headOKC l && lastOK l

/-- The case-insensitively matched literal `pat` starts at no position of
the text: the corresponding global regex replace is the identity. -/
def noTagStart (pat : List Char) : List Char → Bool
  | [] => true
  | c :: rest => !startsWithCI pat (c :: rest) && noTagStart pat rest

/-- A character that can appear inside the quoted address-attribute value
of a media element without interfering with any of the nine replace
passes: not `\s` whitespace, not a quote, not `>`, and not a character
whose lower case is `<`. -/
def goodUrlChar (c : Char) : Bool :=
  !isJsWhitespace c && !isQuoteC c && c ≠ '>' && !(lower c = '<')

/-! Theorems. -/

/-- Claim C2: the initial guard returns `null`, `undefined`, every
non-string value, and the empty string unchanged, with no error, for
every renderer. -/
theorem htmlToMarkdown_identity_on_non_string_or_empty (render : Renderer) :
    htmlToMarkdown render JSValue.jsNull = JSValue.jsNull ∧
    htmlToMarkdown render JSValue.jsUndefined = JSValue.jsUndefined ∧
    (∀ b : Bool, htmlToMarkdown render (JSValue.jsBool b) = JSValue.jsBool b) ∧
    (∀ n : Int, htmlToMarkdown render (JSValue.jsNum n) = JSValue.jsNum n) ∧
    htmlToMarkdown render (JSValue.jsStr []) = JSValue.jsStr [] :=
  ⟨rfl, rfl, fun _ => rfl, fun _ => rfl, rfl⟩

/-- Claim C1: `htmlToMarkdown` is total (it is a Lean function, so it
never raises), whenever the renderer throws it returns the original
input unchanged, and its output on every string is either the original
input or the full three-pass post-processing of a successful render:
there is no partially transformed result. -/
theorem htmlToMarkdownStr_fallback_total (render : Renderer) (s : List Char) :
    (render (extractMediaUrls s) = Except.error () → htmlToMarkdownStr render s = s) ∧
    (htmlToMarkdownStr render s = s ∨
      ∃ md, render (extractMediaUrls s) = Except.ok md ∧
        htmlToMarkdownStr render s =
          normalizeWhitespace (removeInvisibleChars (unwrapSafeLinks md))) := by
  cases h : render (extractMediaUrls s) with
  | ok md =>
    exact ⟨fun hc => Except.noConfusion hc,
      Or.inr ⟨md, rfl, by simp [htmlToMarkdownStr, h]⟩⟩
  | error e =>
    have he : htmlToMarkdownStr render s = s := by simp [htmlToMarkdownStr, h]
    exact ⟨fun _ => he, Or.inl he⟩

/-- Witness for C1: a renderer that always throws makes the pipeline
return the input, double spaces and all, verbatim. -/
theorem htmlToMarkdownStr_fallback_total_witness :
    htmlToMarkdownStr (fun _ => Except.error ()) (("a  b".toList)) = ("a  b".toList) :=
  (htmlToMarkdownStr_fallback_total (fun _ => Except.error ()) (("a  b".toList))).1 rfl

/-- Claim C3: the `optimizeLinks` replacement emits just the inner
content when the `href` is absent or empty (the source's falsy `!href`
guard covers both); emits the bare destination when the `href` is
nonempty and the trimmed content equals it verbatim or with its leading
`http://` or `https://` stripped; and otherwise emits the bracket
syntax with no title. -/
theorem optimizeLinks_cases (content h : List Char) :
    optimizeLinks content none = content ∧
    optimizeLinks content (some []) = content ∧
    (h ≠ [] → (trimStr content = h ∨ trimStr content = stripScheme h) →
      optimizeLinks content (some h) = h) ∧
    (h ≠ [] → trimStr content ≠ h → trimStr content ≠ stripScheme h →
      optimizeLinks content (some h) =
        '[' :: trimStr content ++ ']' :: '(' :: (h ++ [')'])) := by
  refine ⟨rfl, rfl, fun hne hc => ?_, fun hne h1 h2 => ?_⟩
  · have hie : h.isEmpty = false := by
      cases h with
      | nil => exact absurd rfl hne
      | cons a b => rfl
    rcases hc with hc | hc <;> simp [optimizeLinks, hie, hc]
  · have hie : h.isEmpty = false := by
      cases h with
      | nil => exact absurd rfl hne
      | cons a b => rfl
    simp [optimizeLinks, hie, h1, h2]

/-- Witness for C3: a present-but-empty `href` keeps the inner text, a
redundant link collapses to the bare URL, and a distinct text keeps the
bracket syntax. -/
theorem optimizeLinks_cases_witness :
    optimizeLinks (("foo".toList)) (some []) = ("foo".toList) ∧
    optimizeLinks (("https://example.com".toList)) (some (("https://example.com".toList))) =
      ("https://example.com".toList) ∧
    optimizeLinks ((" Example ".toList)) (some (("https://example.com".toList))) =
      ("[Example](https://example.com)".toList) :=
  ⟨(optimizeLinks_cases (("foo".toList)) []).2.1,
    (optimizeLinks_cases (("https://example.com".toList)) (("https://example.com".toList))).2.2.1
      (by decide) (Or.inl (by decide)),
    by
      have := (optimizeLinks_cases ((" Example ".toList)) (("https://example.com".toList))).2.2.2
        (by decide) (by decide) (by decide)
      rw [this]
      decide⟩

/-! Utility lemmas about bounded runs. -/

theorem runBounded_mono {p : Char → Bool} {b : Nat} :
    ∀ (l : List Char) (r r' : Nat), r' ≤ r → runBounded p b l r = true →
      runBounded p b l r' = true := by
  intro l
  induction l with
  | nil => intro r r' _ _; rfl
  | cons c rest ih =>
    intro r r' hle h
    by_cases hp : p c
    · simp only [runBounded, hp, if_true, Bool.and_eq_true, decide_eq_true_eq] at h ⊢
      exact ⟨by omega, ih (r + 1) (r' + 1) (by omega) h.2⟩
    · simp only [runBounded, hp, if_false] at h ⊢
      exact h

theorem runBounded_cons_neg {p : Char → Bool} {b : Nat} {c : Char} {t : List Char} {r : Nat}
    (h : p c = false) : runBounded p b (c :: t) r = runBounded p b t 0 := by
  simp [runBounded, h]

theorem runBounded_nop {p : Char → Bool} {b : Nat} :
    ∀ (l : List Char), (∀ c ∈ l, p c = false) → ∀ r, runBounded p b l r = true := by
  intro l
  induction l with
  | nil => intro _ _; rfl
  | cons c rest ih =>
    intro h r
    rw [runBounded_cons_neg (h c (by simp))]
    exact ih (fun d hd => h d (by simp [hd])) 0

theorem runBounded_append_nop {p : Char → Bool} {b : Nat} :
    ∀ (m : List Char), m ≠ [] → (∀ c ∈ m, p c = false) →
      ∀ (rest : List Char) (r : Nat),
        runBounded p b (m ++ rest) r = runBounded p b rest 0 := by
  intro m
  induction m with
  | nil => intro h _ _ _; exact absurd rfl h
  | cons c m' ih =>
    intro _ h rest r
    rw [List.cons_append, runBounded_cons_neg (h c (by simp))]
    cases m' with
    | nil => rfl
    | cons d m'' =>
      exact ih (by simp) (fun e he => h e (by simp [he])) rest 0

theorem runBounded_append_elim {p : Char → Bool} {b : Nat} :
    ∀ (a s : List Char) (r : Nat), runBounded p b (a ++ s) r = true →
      runBounded p b s 0 = true := by
  intro a
  induction a with
  | nil => intro s r h; exact runBounded_mono s r 0 (Nat.zero_le r) h
  | cons c a' ih =>
    intro s r h
    by_cases hp : p c
    · simp only [List.cons_append, runBounded, hp, if_true, Bool.and_eq_true] at h
      exact ih s (r + 1) h.2
    · rw [List.cons_append, runBounded_cons_neg (by simpa using hp)] at h
      exact ih s 0 h

theorem runBounded_append_left {p : Char → Bool} {b : Nat} :
    ∀ (a s : List Char) (r : Nat), runBounded p b (a ++ s) r = true →
      runBounded p b a r = true := by
  intro a
  induction a with
  | nil => intro _ _ _; rfl
  | cons c a' ih =>
    intro s r h
    by_cases hp : p c
    · simp only [List.cons_append, runBounded, hp, if_true, Bool.and_eq_true,
        decide_eq_true_eq] at h ⊢
      exact ⟨h.1, ih s (r + 1) h.2⟩
    · rw [List.cons_append, runBounded_cons_neg (by simpa using hp)] at h
      rw [runBounded_cons_neg (by simpa using hp)]
      exact ih s 0 h

theorem dropWhile_head_not {q : Char → Bool} :
    ∀ (l : List Char) (c : Char) (t : List Char), l.dropWhile q = c :: t → q c = false := by
  intro l
  induction l with
  | nil => intro c t h; simp [List.dropWhile] at h
  | cons d rest ih =>
    intro c t h
    rw [List.dropWhile_cons] at h
    by_cases hq : q d
    · rw [if_pos hq] at h
      exact ih c t h
    · rw [if_neg hq] at h
      cases h
      simpa using hq

theorem trimRight_append : ∀ (l : List Char), ∃ s, l = trimRight l ++ s := by
  intro l
  induction l with
  | nil => exact ⟨[], rfl⟩
  | cons c rest ih =>
    obtain ⟨s, hs⟩ := ih
    rw [trimRight]
    cases hm : trimRight rest with
    | nil =>
      by_cases hc : isJsWhitespace c
      · rw [if_pos hc]
        exact ⟨c :: rest, rfl⟩
      · rw [if_neg hc]
        refine ⟨s, ?_⟩
        rw [hm] at hs
        simpa using hs
    | cons d t =>
      refine ⟨s, ?_⟩
      rw [hm] at hs
      simpa using hs

/-! The final space-collapsing pass produces no double spaces, and
trimming preserves that. -/

theorem collapse2Spaces_head :
    ∀ (l : List Char) (x : Char) (t : List Char),
      collapse2Spaces l = x :: t → l.head? = some x := by
  intro l
  induction l with
  | nil => intro x t h; simp [collapse2Spaces] at h
  | cons c rest ih =>
    intro x t h
    cases rest with
    | nil =>
      simp [collapse2Spaces] at h
      simp [h.1]
    | cons d rest' =>
      by_cases h1 : c = ' '
      · by_cases h2 : d = ' '
        · subst h1
          subst h2
          simp only [collapse2Spaces, decide_eq_true_eq, if_pos, Bool.and_self] at h
          have hdx : ' ' = x := by simpa using ih x t h
          simp [← hdx]
        · simp only [collapse2Spaces] at h
          rw [if_neg (by simp [h2])] at h
          cases h
          simp
      · simp only [collapse2Spaces] at h
        rw [if_neg (by simp [h1])] at h
        cases h
        simp

theorem collapse2Spaces_noDouble :
    ∀ (l : List Char), noDoubleSpace (collapse2Spaces l) = true := by
  intro l
  induction l with
  | nil => rfl
  | cons c rest ih =>
    cases rest with
    | nil => by_cases hc : c = ' ' <;> simp [collapse2Spaces, noDoubleSpace, runBounded, hc]
    | cons d rest' =>
      by_cases h1 : c = ' '
      · by_cases h2 : d = ' '
        · subst h1
          subst h2
          simp only [collapse2Spaces]
          rw [if_pos (by simp)]
          exact ih
        · simp only [collapse2Spaces]
          rw [if_neg (by simp [h2])]
          unfold noDoubleSpace at ih ⊢
          subst h1
          simp only [runBounded, Bool.and_eq_true, decide_eq_true_eq]
          rw [if_pos (by simp)]
          simp only [Bool.and_eq_true, decide_eq_true_eq]
          refine ⟨by omega, ?_⟩
          cases hX : collapse2Spaces (d :: rest') with
          | nil => rfl
          | cons x t =>
            have hx : d = x := by simpa using collapse2Spaces_head _ _ _ hX
            have hxs : (decide (x = ' ')) = false := by simp [← hx, h2]
            rw [runBounded_cons_neg hxs]
            rw [hX, runBounded_cons_neg hxs] at ih
            exact ih
      · simp only [collapse2Spaces]
        rw [if_neg (by simp [h1])]
        unfold noDoubleSpace at ih ⊢
        rw [runBounded_cons_neg (by simp [h1])]
        exact ih

theorem noDouble_trimStr (l : List Char) (h : noDoubleSpace l = true) :
    noDoubleSpace (trimStr l) = true := by
  have hL : noDoubleSpace (trimLeft l) = true := by
    unfold noDoubleSpace at h ⊢
    unfold trimLeft
    refine runBounded_append_elim (l.takeWhile isJsWhitespace) _ 0 ?_
    rw [List.takeWhile_append_dropWhile isJsWhitespace l]
    exact h
  obtain ⟨s, hs⟩ := trimRight_append (trimLeft l)
  unfold trimStr
  unfold noDoubleSpace at hL ⊢
  refine runBounded_append_left _ s 0 ?_
  rw [← hs]
  exact hL

theorem normalizeWhitespace_noDouble (t : List Char) :
    noDoubleSpace (normalizeWhitespace t) = true :=
  noDouble_trimStr _ (collapse2Spaces_noDouble _)

/-! Membership lemmas: where the characters of each pass's output come
from. -/

theorem mem_zsToSpace {c : Char} {l : List Char} (h : c ∈ zsToSpace l) :
    c = ' ' ∨ (c ∈ l ∧ isZs c = false) := by
  unfold zsToSpace at h
  rcases List.mem_map.1 h with ⟨d, hd, he⟩
  by_cases hz : isZs d
  · rw [if_pos hz] at he
    exact Or.inl he.symm
  · rw [if_neg hz] at he
    subst he
    exact Or.inr ⟨hd, by simpa using hz⟩

theorem mem_splitLines :
    ∀ (t : List Char), ∀ l' ∈ splitLines t, ∀ c ∈ l', c ∈ t := by
  intro t
  induction t with
  | nil =>
    intro l' hl c hc
    simp [splitLines] at hl
    subst hl
    simp at hc
  | cons c0 rest ih =>
    intro l' hl c hc
    by_cases h0 : c0 = '\n'
    · rw [splitLines, if_pos h0] at hl
      rcases List.mem_cons.1 hl with h | h
      · subst h; simp at hc
      · exact List.mem_cons_of_mem _ (ih l' h c hc)
    · rw [splitLines, if_neg h0] at hl
      cases hs : splitLines rest with
      | nil =>
        rw [hs] at hl
        simp at hl
        subst hl
        simp at hc
        simp [hc]
      | cons l ls =>
        rw [hs] at hl
        rcases List.mem_cons.1 hl with h | h
        · subst h
          rcases List.mem_cons.1 hc with h | h
          · simp [h]
          · have : l ∈ splitLines rest := by rw [hs]; exact List.mem_cons_self _ _
            exact List.mem_cons_of_mem _ (ih l this c h)
        · have : l' ∈ splitLines rest := by rw [hs]; exact List.mem_cons_of_mem _ h
          exact List.mem_cons_of_mem _ (ih l' this c hc)

theorem splitLines_no_nl :
    ∀ (t : List Char), ∀ l' ∈ splitLines t, '\n' ∉ l' := by
  intro t
  induction t with
  | nil =>
    intro l' hl
    simp [splitLines] at hl
    subst hl
    simp
  | cons c0 rest ih =>
    intro l' hl
    by_cases h0 : c0 = '\n'
    · rw [splitLines, if_pos h0] at hl
      rcases List.mem_cons.1 hl with h | h
      · subst h; simp
      · exact ih l' h
    · rw [splitLines, if_neg h0] at hl
      cases hs : splitLines rest with
      | nil =>
        rw [hs] at hl
        simp at hl
        subst hl
        simp
        exact fun hx => h0 hx.symm
      | cons l ls =>
        rw [hs] at hl
        rcases List.mem_cons.1 hl with h | h
        · subst h
          intro hmem
          rcases List.mem_cons.1 hmem with h | h
          · exact h0 h.symm
          · have : l ∈ splitLines rest := by rw [hs]; exact List.mem_cons_self _ _
            exact ih l this h
        · have : l' ∈ splitLines rest := by rw [hs]; exact List.mem_cons_of_mem _ h
          exact ih l' this

theorem mem_collapseSpaceTab :
    ∀ (l : List Char), ∀ c ∈ collapseSpaceTab l, c = ' ' ∨ c ∈ l := by
  intro l
  induction l with
  | nil => intro c hc; simp [collapseSpaceTab] at hc
  | cons c0 rest ih =>
    intro c hc
    cases rest with
    | nil =>
      by_cases h0 : isSpaceTab c0 <;> simp [collapseSpaceTab, h0] at hc
      · exact Or.inl hc
      · simp [hc]
    | cons d rest' =>
      rw [collapseSpaceTab] at hc
      by_cases hcd : isSpaceTab c0 && isSpaceTab d
      · rw [if_pos hcd] at hc
        rcases ih c hc with h | h
        · exact Or.inl h
        · exact Or.inr (List.mem_cons_of_mem _ h)
      · rw [if_neg hcd] at hc
        rcases List.mem_cons.1 hc with h | h
        · by_cases h0 : isSpaceTab c0
          · rw [if_pos h0] at h
            exact Or.inl h
          · rw [if_neg h0] at h
            simp [h]
        · rcases ih c h with h2 | h2
          · exact Or.inl h2
          · exact Or.inr (List.mem_cons_of_mem _ h2)

theorem mem_collapse2Spaces :
    ∀ (l : List Char), ∀ c ∈ collapse2Spaces l, c ∈ l := by
  intro l
  induction l with
  | nil => intro c hc; simp [collapse2Spaces] at hc
  | cons c0 rest ih =>
    intro c hc
    cases rest with
    | nil =>
      simp [collapse2Spaces] at hc
      simp [hc]
    | cons d rest' =>
      rw [collapse2Spaces] at hc
      by_cases hcd : (c0 = ' ' && d = ' ' : Bool)
      · rw [if_pos hcd] at hc
        exact List.mem_cons_of_mem _ (ih c hc)
      · rw [if_neg hcd] at hc
        rcases List.mem_cons.1 hc with h | h
        · simp [h]
        · exact List.mem_cons_of_mem _ (ih c h)

theorem mem_trimLeft {c : Char} {l : List Char} (h : c ∈ trimLeft l) : c ∈ l :=
  (List.dropWhile_suffix isJsWhitespace).sublist.subset h

theorem mem_trimRight {c : Char} {l : List Char} (h : c ∈ trimRight l) : c ∈ l := by
  obtain ⟨s, hs⟩ := trimRight_append l
  rw [hs]
  exact List.mem_append_left _ h

theorem mem_trimStr {c : Char} {l : List Char} (h : c ∈ trimStr l) : c ∈ l :=
  mem_trimLeft (mem_trimRight h)

theorem mem_dropBlanks :
    ∀ (ls : List (List Char)) (flag : Bool), ∀ l' ∈ dropBlanks ls flag,
      l' = [] ∨ l' ∈ ls := by
  intro ls
  induction ls with
  | nil => intro flag l' h; simp [dropBlanks] at h
  | cons l rest ih =>
    intro flag l' h
    rw [dropBlanks] at h
    by_cases hl : l = []
    · rw [if_pos hl] at h
      by_cases hf : flag
      · rw [if_pos hf] at h
        rcases ih true l' h with h2 | h2
        · exact Or.inl h2
        · exact Or.inr (List.mem_cons_of_mem _ h2)
      · rw [if_neg hf] at h
        rcases List.mem_cons.1 h with h2 | h2
        · exact Or.inl h2
        · rcases ih true l' h2 with h3 | h3
          · exact Or.inl h3
          · exact Or.inr (List.mem_cons_of_mem _ h3)
    · rw [if_neg hl] at h
      rcases List.mem_cons.1 h with h2 | h2
      · subst h2; exact Or.inr (List.mem_cons_self _ _)
      · rcases ih false l' h2 with h3 | h3
        · exact Or.inl h3
        · exact Or.inr (List.mem_cons_of_mem _ h3)

theorem mem_joinLines :
    ∀ (ls : List (List Char)), ∀ c ∈ joinLines ls, c = '\n' ∨ ∃ l ∈ ls, c ∈ l := by
  intro ls
  induction ls with
  | nil => intro c hc; simp [joinLines] at hc
  | cons l rest ih =>
    intro c hc
    cases rest with
    | nil =>
      simp only [joinLines] at hc
      exact Or.inr ⟨l, List.mem_cons_self _ _, hc⟩
    | cons l2 ls' =>
      simp only [joinLines] at hc
      rcases List.mem_append.1 hc with h | h
      · exact Or.inr ⟨l, List.mem_cons_self _ _, h⟩
      · rcases List.mem_cons.1 h with h2 | h2
        · exact Or.inl h2
        · rcases ih c h2 with h3 | ⟨l3, hl3, hc3⟩
          · exact Or.inl h3
          · exact Or.inr ⟨l3, List.mem_cons_of_mem _ hl3, hc3⟩

theorem mem_normalizeWhitespace :
    ∀ (t : List Char), ∀ c ∈ normalizeWhitespace t,
      c = ' ' ∨ c = '\n' ∨ c ∈ zsToSpace t := by
  intro t c hc
  unfold normalizeWhitespace at hc
  have h1 := mem_collapse2Spaces _ c (mem_trimStr hc)
  rcases mem_joinLines _ c h1 with h2 | ⟨l, hl, hcl⟩
  · exact Or.inr (Or.inl h2)
  · rcases mem_dropBlanks _ _ l hl with h3 | h3
    · subst h3; simp at hcl
    · rcases List.mem_map.1 h3 with ⟨l0, hl0, he⟩
      subst he
      unfold processLine at hcl
      rcases mem_collapseSpaceTab _ c (mem_trimStr hcl) with h4 | h4
      · exact Or.inl h4
      · exact Or.inr (Or.inr (mem_splitLines _ l0 hl0 c h4))

/-- Claim C6: on every input whose rendering stage succeeds (the
renderer is the external turndown library, abstracted as `render`), the
output of `htmlToMarkdown` has no run of two or more ASCII spaces and no
space-separator character other than the ASCII space. -/
theorem htmlToMarkdownStr_space_invariant (render : Renderer) (html md : List Char)
    (hr : render (extractMediaUrls html) = Except.ok md) :
    noDoubleSpace (htmlToMarkdownStr render html) = true ∧
    (htmlToMarkdownStr render html).all (fun c => !isZs c || c = ' ') = true := by
  have hout : htmlToMarkdownStr render html =
      normalizeWhitespace (removeInvisibleChars (unwrapSafeLinks md)) := by
    simp [htmlToMarkdownStr, hr]
  rw [hout]
  refine ⟨normalizeWhitespace_noDouble _, ?_⟩
  rw [List.all_eq_true]
  intro c hc
  rcases mem_normalizeWhitespace _ c hc with h | h | h
  · subst h; decide
  · subst h; decide
  · rcases mem_zsToSpace h with h2 | h2
    · subst h2; decide
    · simp [h2.2]

/-- Witness for C6: a concrete renderer output with double spaces and a
no-break space comes out clean. -/
theorem htmlToMarkdownStr_space_invariant_witness :
    noDoubleSpace (htmlToMarkdownStr (fun _ => Except.ok (("A    B".toList)))
      (("x".toList))) = true ∧
    (htmlToMarkdownStr (fun _ => Except.ok (("A    B".toList)))
      (("x".toList))).all (fun c => !isZs c || c = ' ') = true :=
  htmlToMarkdownStr_space_invariant (fun _ => Except.ok (("A    B".toList)))
    (("x".toList)) (("A    B".toList)) rfl

/-! Newline-run lemmas for claim C7. -/

theorem dropBlanks_adj :
    ∀ (ls : List (List Char)) (flag : Bool),
      noAdjEmpty (dropBlanks ls flag) = true ∧
      (flag = true → headNonEmpty (dropBlanks ls flag) = true) := by
  intro ls
  induction ls with
  | nil => intro flag; exact ⟨rfl, fun _ => rfl⟩
  | cons l rest ih =>
    intro flag
    rw [dropBlanks]
    by_cases hl : l = []
    · rw [if_pos hl]
      by_cases hf : flag
      · rw [if_pos hf]
        exact ⟨(ih true).1, fun _ => (ih true).2 rfl⟩
      · rw [if_neg hf]
        constructor
        · simp only [noAdjEmpty, List.isEmpty_nil, Bool.not_true, Bool.false_or,
            Bool.and_eq_true]
          exact ⟨(ih true).2 rfl, (ih true).1⟩
        · intro hft
          exact absurd hft hf
    · rw [if_neg hl]
      have hne : l.isEmpty = false := by
        cases l with
        | nil => exact absurd rfl hl
        | cons a b => rfl
      constructor
      · simp only [noAdjEmpty, hne, Bool.not_false, Bool.true_or, Bool.true_and]
        exact (ih false).1
      · intro _
        simp [headNonEmpty, hne]

theorem joinLines_noTriple :
    ∀ (ls : List (List Char)), (∀ l ∈ ls, '\n' ∉ l) → noAdjEmpty ls = true →
      ∀ r : Nat, (r ≤ 1 ∨ (r = 2 ∧ headNonEmpty ls = true)) →
        runBounded (fun c => c = '\n') 3 (joinLines ls) r = true := by
  intro ls
  induction ls with
  | nil => intro _ _ r _; rfl
  | cons l rest ih =>
    intro hnl hadj r hr
    have hnotnl : ∀ c ∈ l, (decide (c = '\n')) = false := by
      intro c hc
      have := hnl l (List.mem_cons_self _ _)
      simp only [decide_eq_false_iff_not]
      intro he
      subst he
      exact this hc
    cases rest with
    | nil =>
      simp only [joinLines]
      exact runBounded_nop l hnotnl r
    | cons l2 ls' =>
      simp only [joinLines]
      have hnl' : ∀ m ∈ l2 :: ls', '\n' ∉ m := fun m hm => hnl m (List.mem_cons_of_mem _ hm)
      have hadjc : ((!l.isEmpty || headNonEmpty (l2 :: ls')) && noAdjEmpty (l2 :: ls')) = true :=
        hadj
      have hadj' : noAdjEmpty (l2 :: ls') = true := by
        rw [Bool.and_eq_true] at hadjc
        exact hadjc.2
      by_cases hl : l = []
      · subst hl
        simp only [List.nil_append]
        have hr1 : r ≤ 1 := by
          rcases hr with h | ⟨_, hh⟩
          · exact h
          · simp [headNonEmpty] at hh
        simp only [runBounded]
        rw [if_pos (by simp)]
        simp only [Bool.and_eq_true, decide_eq_true_eq]
        refine ⟨by omega, ?_⟩
        by_cases hr0 : r = 0
        · exact ih hnl' hadj' (r + 1) (Or.inl (by omega))
        · have hhd : headNonEmpty (l2 :: ls') = true := by
            rw [Bool.and_eq_true] at hadjc
            simpa using hadjc.1
          exact ih hnl' hadj' (r + 1) (Or.inr ⟨by omega, hhd⟩)
      · rw [runBounded_append_nop l hl hnotnl _ r]
        simp only [runBounded]
        rw [if_pos (by simp)]
        simp only [Bool.and_eq_true, decide_eq_true_eq]
        exact ⟨by omega, ih hnl' hadj' 1 (Or.inl (by omega))⟩

theorem collapse2Spaces_runBounded {p : Char → Bool} {b : Nat} (hp : p ' ' = false) :
    ∀ (l : List Char) (r : Nat), runBounded p b l r = true →
      runBounded p b (collapse2Spaces l) r = true := by
  intro l
  induction l with
  | nil => intro r h; exact h
  | cons c rest ih =>
    intro r h
    cases rest with
    | nil => exact h
    | cons d rest' =>
      by_cases hcd : (c = ' ' && d = ' ' : Bool)
      · simp only [collapse2Spaces]
        rw [if_pos hcd]
        have hc' : c = ' ' := by simp at hcd; exact hcd.1
        have hd' : d = ' ' := by simp at hcd; exact hcd.2
        have h0 : runBounded p b (d :: rest') 0 = true := by
          rw [runBounded_cons_neg (hc' ▸ hp)] at h
          exact h
        have hgoal0 := ih 0 h0
        cases hX : collapse2Spaces (d :: rest') with
        | nil => rfl
        | cons x t =>
          have hx : d = x := by simpa using collapse2Spaces_head _ _ _ hX
          have hxp : p x = false := by rw [← hx, hd']; exact hp
          rw [hX, runBounded_cons_neg hxp] at hgoal0
          rw [runBounded_cons_neg hxp]
          exact hgoal0
      · simp only [collapse2Spaces]
        rw [if_neg (by simpa using hcd)]
        by_cases hpc : p c = true
        · simp only [runBounded, hpc, if_true, Bool.and_eq_true] at h ⊢
          exact ⟨h.1, ih (r + 1) h.2⟩
        · have hf : p c = false := by simpa using hpc
          rw [runBounded_cons_neg hf] at h
          rw [runBounded_cons_neg hf]
          exact ih 0 h

theorem runBounded_trimStr {p : Char → Bool} {b : Nat} (l : List Char)
    (h : runBounded p b l 0 = true) : runBounded p b (trimStr l) 0 = true := by
  have hL : runBounded p b (trimLeft l) 0 = true := by
    unfold trimLeft
    refine runBounded_append_elim (l.takeWhile isJsWhitespace) _ 0 ?_
    rw [List.takeWhile_append_dropWhile isJsWhitespace l]
    exact h
  obtain ⟨s, hs⟩ := trimRight_append (trimLeft l)
  unfold trimStr
  refine runBounded_append_left _ s 0 ?_
  rw [← hs]
  exact hL

theorem normalizeWhitespace_noTriple (t : List Char) :
    noTripleNewline (normalizeWhitespace t) = true := by
  unfold noTripleNewline normalizeWhitespace
  apply runBounded_trimStr
  apply collapse2Spaces_runBounded (by decide)
  apply joinLines_noTriple _ ?_ (dropBlanks_adj _ true).1 0 (Or.inl (by omega))
  intro l hl
  rcases mem_dropBlanks _ _ l hl with h | h
  · subst h; simp
  · rcases List.mem_map.1 h with ⟨l0, hl0, he⟩
    subst he
    intro hmem
    unfold processLine at hmem
    rcases mem_collapseSpaceTab _ _ (mem_trimStr hmem) with h2 | h2
    · exact absurd h2 (by decide)
    · exact splitLines_no_nl _ l0 hl0 h2

/-- Claim C7: on every input whose rendering stage succeeds, the output
of `htmlToMarkdown` has no run of three or more consecutive newlines. -/
theorem htmlToMarkdownStr_newline_invariant (render : Renderer) (html md : List Char)
    (hr : render (extractMediaUrls html) = Except.ok md) :
    noTripleNewline (htmlToMarkdownStr render html) = true := by
  have hout : htmlToMarkdownStr render html =
      normalizeWhitespace (removeInvisibleChars (unwrapSafeLinks md)) := by
    simp [htmlToMarkdownStr, hr]
  rw [hout]
  exact normalizeWhitespace_noTriple _

/-- Witness for C7: a renderer output with a run of four newlines is
reduced below three. -/
theorem htmlToMarkdownStr_newline_invariant_witness :
    noTripleNewline (htmlToMarkdownStr (fun _ => Except.ok (("a\n\n\n\nb".toList)))
      (("x".toList))) = true :=
  htmlToMarkdownStr_newline_invariant (fun _ => Except.ok (("a\n\n\n\nb".toList)))
    (("x".toList)) (("a\n\n\n\nb".toList)) rfl

/-- Claim C8: on every input whose rendering stage succeeds, the output
of `htmlToMarkdown` contains no Unicode format (Cf) character and no
combining grapheme joiner U+034F. -/
theorem htmlToMarkdownStr_no_invisible (render : Renderer) (html md : List Char)
    (hr : render (extractMediaUrls html) = Except.ok md) :
    (htmlToMarkdownStr render html).all
      (fun c => !isCf c && decide (c.toNat ≠ 0x34F)) = true := by
  have hout : htmlToMarkdownStr render html =
      normalizeWhitespace (removeInvisibleChars (unwrapSafeLinks md)) := by
    simp [htmlToMarkdownStr, hr]
  rw [hout]
  rw [List.all_eq_true]
  intro c hc
  rcases mem_normalizeWhitespace _ c hc with h | h | h
  · subst h; decide
  · subst h; decide
  · rcases mem_zsToSpace h with h2 | h2
    · subst h2; decide
    · have hmem := h2.1
      unfold removeInvisibleChars at hmem
      have h1 := List.mem_filter.1 hmem
      have h2f := List.mem_filter.1 h1.1
      simp only [Bool.and_eq_true]
      exact ⟨by simpa using h2f.2, by simpa using h1.2⟩

/-- Witness for C8: a concrete renderer output with a zero-width space,
a soft hyphen and a combining grapheme joiner comes out clean. -/
theorem htmlToMarkdownStr_no_invisible_witness :
    (htmlToMarkdownStr (fun _ => Except.ok (("A\u200BB\u00ADC\u034FD".toList)))
      (("x".toList))).all (fun c => !isCf c && decide (c.toNat ≠ 0x34F)) = true :=
  htmlToMarkdownStr_no_invisible (fun _ => Except.ok (("A\u200BB\u00ADC\u034FD".toList)))
    (("x".toList)) (("A\u200BB\u00ADC\u034FD".toList)) rfl

/-! Lemmas for claim C9: whitespace-only rendered text normalizes to the
empty string. -/

theorem ws_lower_ne_h {c : Char} (h : isJsWhitespace c = true) : lower c ≠ 'h' := by
  unfold lower
  by_cases hb : (65 ≤ c.toNat && c.toNat ≤ 90 : Bool)
  · exfalso
    simp only [isJsWhitespace, Bool.or_eq_true, decide_eq_true_eq, Bool.and_eq_true] at h
    simp only [Bool.and_eq_true, decide_eq_true_eq] at hb
    omega
  · rw [if_neg hb]
    intro he
    rw [he] at h
    exact absurd h (by decide)

theorem unwrapSafeLinksF_id :
    ∀ (l : List Char), (∀ c ∈ l, lower c ≠ 'h') →
      ∀ fuel, unwrapSafeLinksF fuel l = l := by
  intro l
  induction l with
  | nil => intro _ fuel; cases fuel <;> rfl
  | cons c rest ih =>
    intro h fuel
    cases fuel with
    | zero => rfl
    | succ fuel =>
      have hc := h c (List.mem_cons_self _ _)
      have hm : safeLinkMatchAt (c :: rest) = none := by
        unfold safeLinkMatchAt
        rw [if_neg ?_]
        simp [startsWithCI, hc]
      simp only [unwrapSafeLinksF, hm]
      exact congrArg (c :: ·) (ih (fun d hd => h d (List.mem_cons_of_mem _ hd)) fuel)

theorem unwrapSafeLinks_id (l : List Char) (h : ∀ c ∈ l, lower c ≠ 'h') :
    unwrapSafeLinks l = l :=
  unwrapSafeLinksF_id l h l.length

theorem dropBlanks_empty :
    ∀ (ls : List (List Char)), (∀ l ∈ ls, l = []) → dropBlanks ls true = [] := by
  intro ls
  induction ls with
  | nil => intro _; rfl
  | cons l rest ih =>
    intro h
    rw [dropBlanks, if_pos (h l (List.mem_cons_self _ _)), if_pos rfl]
    exact ih (fun m hm => h m (List.mem_cons_of_mem _ hm))

theorem normalizeWhitespace_ws_empty (l : List Char)
    (h : ∀ c ∈ l, isJsWhitespace c = true) : normalizeWhitespace l = [] := by
  have hzs : ∀ c ∈ zsToSpace l, isJsWhitespace c = true := by
    intro c hc
    rcases mem_zsToSpace hc with h2 | h2
    · subst h2; decide
    · exact h c h2.1
  have hlines : ∀ m ∈ (splitLines (zsToSpace l)).map processLine, m = [] := by
    intro m hm
    rcases List.mem_map.1 hm with ⟨l0, hl0, he⟩
    subst he
    have hl0ws : ∀ c ∈ collapseSpaceTab l0, isJsWhitespace c = true := by
      intro c hc
      rcases mem_collapseSpaceTab _ c hc with h2 | h2
      · subst h2; decide
      · exact hzs c (mem_splitLines _ l0 hl0 c h2)
    unfold processLine trimStr trimLeft
    rw [List.dropWhile_eq_nil_iff.2 hl0ws]
    rfl
  unfold normalizeWhitespace
  rw [dropBlanks_empty _ hlines]
  rfl

theorem asciiOrZs_jsws {c : Char} (h : (isAsciiWhitespace c || isZs c) = true) :
    isJsWhitespace c = true := by
  simp only [isAsciiWhitespace, isZs, Bool.or_eq_true, decide_eq_true_eq,
    Bool.and_eq_true] at h
  simp only [isJsWhitespace, Bool.or_eq_true, decide_eq_true_eq, Bool.and_eq_true]
  omega

/-- Claim C9: whenever the rendering stage succeeds and produces text
consisting only of ASCII whitespace and Unicode space-separator
characters (as it does for markup with no text nodes), the output of
`htmlToMarkdown` is the empty string; the empty string input also maps
to the empty string. -/
theorem htmlToMarkdown_ws_only (render : Renderer) (html md : List Char)
    (hr : render (extractMediaUrls html) = Except.ok md)
    (hws : ∀ c ∈ md, (isAsciiWhitespace c || isZs c) = true) :
    htmlToMarkdown render (JSValue.jsStr html) = JSValue.jsStr [] := by
  have hws' : ∀ c ∈ md, isJsWhitespace c = true := fun c hc => asciiOrZs_jsws (hws c hc)
  have h1 : unwrapSafeLinks md = md :=
    unwrapSafeLinks_id md (fun c hc => ws_lower_ne_h (hws' c hc))
  have h2 : ∀ c ∈ removeInvisibleChars md, isJsWhitespace c = true := by
    intro c hc
    unfold removeInvisibleChars at hc
    exact hws' c ((List.mem_filter.1 (List.mem_filter.1 hc).1).1)
  have hpipe : htmlToMarkdownStr render html = [] := by
    unfold htmlToMarkdownStr
    rw [hr]
    show normalizeWhitespace (removeInvisibleChars (unwrapSafeLinks md)) = []
    rw [h1]
    exact normalizeWhitespace_ws_empty _ h2
  show (if html.isEmpty = true then JSValue.jsStr html
    else JSValue.jsStr (htmlToMarkdownStr render html)) = JSValue.jsStr []
  by_cases he : html.isEmpty
  · rw [if_pos he]
    have : html = [] := by
      cases html with
      | nil => rfl
      | cons a b => exact absurd he (by simp)
    rw [this]
  · rw [if_neg he, hpipe]

/-- Witness for C9: a renderer output of mixed ASCII and Unicode spaces
normalizes to the empty string. -/
theorem htmlToMarkdown_ws_only_witness :
    htmlToMarkdown (fun _ => Except.ok ((" \t  \n  ".toList)))
      (JSValue.jsStr (("x".toList))) = JSValue.jsStr [] :=
  htmlToMarkdown_ws_only (fun _ => Except.ok ((" \t  \n  ".toList)))
    (("x".toList)) ((" \t  \n  ".toList)) rfl (by decide)

/-! Line-level identity lemmas for the idempotence of
`normalizeWhitespace`. -/

theorem collapseSpaceTab_head_nonST {d : Char} (rest : List Char)
    (h : isSpaceTab d = false) :
    collapseSpaceTab (d :: rest) = d :: collapseSpaceTab rest := by
  cases rest with
  | nil => simp [collapseSpaceTab, h]
  | cons e rest' =>
    simp only [collapseSpaceTab]
    rw [if_neg (by simp [h]), if_neg (by simp [h])]

theorem collapseSpaceTab_id :
    ∀ (l : List Char), (∀ c ∈ l, c ≠ '\t') → noDoubleSpace l = true →
      collapseSpaceTab l = l := by
  intro l
  induction l with
  | nil => intro _ _; rfl
  | cons c rest ih =>
    intro ht hd
    have hct : c ≠ '\t' := ht c (List.mem_cons_self _ _)
    cases rest with
    | nil =>
      by_cases hc : c = ' '
      · subst hc; rfl
      · simp [collapseSpaceTab, isSpaceTab, hc, hct]
    | cons d rest' =>
      have hdt : d ≠ '\t' := ht d (List.mem_cons_of_mem _ (List.mem_cons_self _ _))
      have hcond : (isSpaceTab c && isSpaceTab d) = false := by
        by_cases hc : c = ' '
        · by_cases hdsp : d = ' '
          · exfalso
            subst hc
            subst hdsp
            unfold noDoubleSpace at hd
            simp [runBounded] at hd
          · simp [isSpaceTab, hdsp, hdt]
        · simp [isSpaceTab, hc, hct]
      have hrest : noDoubleSpace (d :: rest') = true := by
        unfold noDoubleSpace at hd ⊢
        by_cases hc : c = ' '
        · rw [show runBounded (fun c => c = ' ') 2 (c :: d :: rest') 0 =
              (decide (0 + 1 < 2) && runBounded (fun c => c = ' ') 2 (d :: rest') 1) from by
            simp [runBounded, hc]] at hd
          simp only [Bool.and_eq_true] at hd
          exact runBounded_mono _ 1 0 (by omega) hd.2
        · rw [runBounded_cons_neg (by simp [hc])] at hd
          exact hd
      simp only [collapseSpaceTab]
      rw [if_neg (by simp [hcond])]
      have hcs : (if isSpaceTab c then ' ' else c) = c := by
        by_cases hc : c = ' '
        · rw [if_pos (by simp [isSpaceTab, hc]), hc]
        · rw [if_neg (by simp [isSpaceTab, hc, hct])]
      rw [hcs]
      exact congrArg (c :: ·) (ih (fun e he => ht e (List.mem_cons_of_mem _ he)) hrest)

theorem trimLeft_id (l : List Char) (h : headOKC l = true) : trimLeft l = l := by
  cases l with
  | nil => rfl
  | cons c rest =>
    unfold trimLeft
    rw [List.dropWhile_cons, if_neg ?_]
    simp only [headOKC, Bool.not_eq_true'] at h
    simp [h]

theorem trimRight_id : ∀ (l : List Char), lastOK l = true → trimRight l = l := by
  intro l
  induction l with
  | nil => intro _; rfl
  | cons c rest ih =>
    intro h
    cases rest with
    | nil =>
      simp only [lastOK, Bool.not_eq_true'] at h
      simp [trimRight, h]
    | cons d rest' =>
      have hr : trimRight (d :: rest') = d :: rest' := ih h
      rw [trimRight, hr]

theorem trimStr_id (l : List Char) (h1 : headOKC l = true) (h2 : lastOK l = true) :
    trimStr l = l := by
  unfold trimStr
  rw [trimLeft_id l h1, trimRight_id l h2]

theorem processLine_id (p : List Char) (h : goodLine p = true) : processLine p = p := by
  unfold goodLine at h
  simp only [Bool.and_eq_true, List.all_eq_true] at h
  obtain ⟨⟨⟨hall, hd⟩, hh⟩, hl⟩ := h
  have ht : ∀ c ∈ p, c ≠ '\t' := by
    intro c hc
    have := hall c hc
    simp only [Bool.and_eq_true, decide_eq_true_eq] at this
    exact this.1.2
  unfold processLine
  rw [collapseSpaceTab_id p ht hd]
  exact trimStr_id p hh hl

/-! Structure-level lemmas: splitting is a left inverse of joining,
blank-line suppression and space collapsing fix normalized line lists. -/

theorem splitLines_ne_nil : ∀ (x : List Char), splitLines x ≠ [] := by
  intro x
  cases x with
  | nil => simp [splitLines]
  | cons c rest =>
    rw [splitLines]
    by_cases hc : c = '\n'
    · rw [if_pos hc]; simp
    · rw [if_neg hc]
      cases hs : splitLines rest with
      | nil => simp
      | cons l ls => simp

theorem splitLines_single : ∀ (l : List Char), '\n' ∉ l → splitLines l = [l] := by
  intro l
  induction l with
  | nil => intro _; rfl
  | cons c rest ih =>
    intro h
    have hc : c ≠ '\n' := fun he => h (he ▸ List.mem_cons_self _ _)
    rw [splitLines, if_neg hc, ih (fun hm => h (List.mem_cons_of_mem _ hm))]

theorem splitLines_append_nl :
    ∀ (l x : List Char), '\n' ∉ l → splitLines (l ++ '\n' :: x) = l :: splitLines x := by
  intro l
  induction l with
  | nil => intro x _; simp [splitLines]
  | cons c l' ih =>
    intro x h
    have hc : c ≠ '\n' := fun he => h (he ▸ List.mem_cons_self _ _)
    rw [List.cons_append, splitLines, if_neg hc,
      ih x (fun hm => h (List.mem_cons_of_mem _ hm))]

theorem split_join :
    ∀ (ls : List (List Char)), ls ≠ [] → (∀ p ∈ ls, '\n' ∉ p) →
      splitLines (joinLines ls) = ls := by
  intro ls
  induction ls with
  | nil => intro h _; exact absurd rfl h
  | cons l rest ih =>
    intro _ h
    cases rest with
    | nil =>
      simp only [joinLines]
      exact splitLines_single l (h l (List.mem_cons_self _ _))
    | cons l2 ls' =>
      simp only [joinLines]
      rw [splitLines_append_nl l _ (h l (List.mem_cons_self _ _))]
      rw [ih (by simp) (fun p hp => h p (List.mem_cons_of_mem _ hp))]

theorem dropBlanks_id :
    ∀ (ls : List (List Char)) (flag : Bool), noAdjEmpty ls = true →
      (flag = true → headNonEmpty ls = true) → dropBlanks ls flag = ls := by
  intro ls
  induction ls with
  | nil => intro flag _ _; rfl
  | cons l rest ih =>
    intro flag hadj hhd
    have hadjc : ((!l.isEmpty || headNonEmpty rest) && noAdjEmpty rest) = true := hadj
    rw [Bool.and_eq_true] at hadjc
    rw [dropBlanks]
    by_cases hl : l = []
    · have hflag : flag = false := by
        cases flag with
        | false => rfl
        | true =>
          have := hhd rfl
          simp only [headNonEmpty, hl, List.isEmpty_nil, Bool.not_true] at this
          exact absurd this (by simp)
      rw [if_pos hl, hflag, if_neg (by simp)]
      have hhd' : headNonEmpty rest = true := by
        have := hadjc.1
        simpa [hl] using this
      rw [ih true hadjc.2 (fun _ => hhd'), hl]
    · rw [if_neg hl]
      rw [ih false hadjc.2 (by intro hfalse; cases hfalse)]

theorem map_processLine_id :
    ∀ (ls : List (List Char)), (∀ p ∈ ls, goodLine p = true) →
      ls.map processLine = ls := by
  intro ls
  induction ls with
  | nil => intro _; rfl
  | cons l rest ih =>
    intro h
    rw [List.map_cons, processLine_id l (h l (List.mem_cons_self _ _)),
      ih (fun p hp => h p (List.mem_cons_of_mem _ hp))]

theorem runBounded_append_break {p : Char → Bool} {b : Nat} {c : Char} :
    ∀ (a d : List Char) (r : Nat), runBounded p b a r = true → p c = false →
      runBounded p b d 0 = true → runBounded p b (a ++ c :: d) r = true := by
  intro a
  induction a with
  | nil =>
    intro d r _ hc hd
    rw [List.nil_append, runBounded_cons_neg hc]
    exact hd
  | cons c0 a' ih =>
    intro d r ha hc hd
    by_cases hp : p c0 = true
    · simp only [runBounded, hp, if_true, Bool.and_eq_true] at ha
      rw [List.cons_append]
      simp only [runBounded, hp, if_true, Bool.and_eq_true]
      exact ⟨ha.1, ih d (r + 1) ha.2 hc hd⟩
    · have hf : p c0 = false := by simpa using hp
      rw [runBounded_cons_neg hf] at ha
      rw [List.cons_append, runBounded_cons_neg hf]
      exact ih d 0 ha hc hd

theorem join_noDouble :
    ∀ (ls : List (List Char)), (∀ q ∈ ls, noDoubleSpace q = true) →
      noDoubleSpace (joinLines ls) = true := by
  intro ls
  induction ls with
  | nil => intro _; rfl
  | cons l rest ih =>
    intro h
    cases rest with
    | nil => exact h l (List.mem_cons_self _ _)
    | cons l2 ls' =>
      simp only [joinLines]
      exact runBounded_append_break l _ 0 (h l (List.mem_cons_self _ _)) (by decide)
        (ih (fun q hq => h q (List.mem_cons_of_mem _ hq)))

theorem collapse2Spaces_id :
    ∀ (l : List Char), noDoubleSpace l = true → collapse2Spaces l = l := by
  intro l
  induction l with
  | nil => intro _; rfl
  | cons c rest ih =>
    intro h
    cases rest with
    | nil => rfl
    | cons d rest' =>
      have hcond : (c = ' ' && d = ' ' : Bool) = false := by
        by_cases hc : c = ' '
        · by_cases hdsp : d = ' '
          · exfalso
            subst hc
            subst hdsp
            unfold noDoubleSpace at h
            simp [runBounded] at h
          · simp [hdsp]
        · simp [hc]
      have hrest : noDoubleSpace (d :: rest') = true := by
        unfold noDoubleSpace at h ⊢
        by_cases hc : c = ' '
        · rw [show runBounded (fun c => c = ' ') 2 (c :: d :: rest') 0 =
              (decide (0 + 1 < 2) && runBounded (fun c => c = ' ') 2 (d :: rest') 1) from by
            simp [runBounded, hc]] at h
          simp only [Bool.and_eq_true] at h
          exact runBounded_mono _ 1 0 (by omega) h.2
        · rw [runBounded_cons_neg (by simp [hc])] at h
          exact h
      simp only [collapse2Spaces]
      rw [if_neg (by simp [hcond])]
      exact congrArg (c :: ·) (ih hrest)

theorem headOKC_append (l x : List Char) (h : l ≠ []) :
    headOKC (l ++ x) = headOKC l := by
  cases l with
  | nil => exact absurd rfl h
  | cons c rest => rfl

theorem join_headOKC :
    ∀ (ls : List (List Char)), headNonEmpty ls = true →
      (∀ p ∈ ls, headOKC p = true) → headOKC (joinLines ls) = true := by
  intro ls hhd hall
  cases ls with
  | nil => rfl
  | cons l rest =>
    have hl : l ≠ [] := by
      simp only [headNonEmpty, Bool.not_eq_true'] at hhd
      intro he
      rw [he] at hhd
      simp at hhd
    cases rest with
    | nil => exact hall l (List.mem_cons_self _ _)
    | cons l2 ls' =>
      simp only [joinLines]
      rw [headOKC_append l _ hl]
      exact hall l (List.mem_cons_self _ _)

theorem lastOK_append :
    ∀ (a b : List Char), b ≠ [] → lastOK (a ++ b) = lastOK b := by
  intro a
  induction a with
  | nil => intro b _; rfl
  | cons c a' ih =>
    intro b hb
    rw [List.cons_append]
    have hne : a' ++ b ≠ [] := by
      intro he
      rcases List.append_eq_nil.1 he with ⟨_, h2⟩
      exact hb h2
    cases hab : a' ++ b with
    | nil => exact absurd hab hne
    | cons d rest =>
      rw [show lastOK (c :: d :: rest) = lastOK (d :: rest) from rfl, ← hab]
      exact ih b hb

theorem join_ne_nil :
    ∀ (ls : List (List Char)), lastNonEmpty ls = true → ls ≠ [] →
      joinLines ls ≠ [] := by
  intro ls hlast hne
  cases ls with
  | nil => exact absurd rfl hne
  | cons l rest =>
    cases rest with
    | nil =>
      simp only [joinLines]
      simp only [lastNonEmpty, Bool.not_eq_true'] at hlast
      intro he
      rw [he] at hlast
      simp at hlast
    | cons l2 ls' =>
      simp only [joinLines]
      simp

theorem join_lastOK :
    ∀ (ls : List (List Char)), (∀ p ∈ ls, lastOK p = true) →
      lastNonEmpty ls = true → lastOK (joinLines ls) = true := by
  intro ls
  induction ls with
  | nil => intro _ _; rfl
  | cons l rest ih =>
    intro hall hlast
    cases rest with
    | nil =>
      simp only [joinLines]
      exact hall l (List.mem_cons_self _ _)
    | cons l2 ls' =>
      simp only [joinLines]
      have hlast' : lastNonEmpty (l2 :: ls') = true := hlast
      have hjoin_ne : joinLines (l2 :: ls') ≠ [] := join_ne_nil _ hlast' (by simp)
      rw [lastOK_append l _ (by simp)]
      cases hj : joinLines (l2 :: ls') with
      | nil => exact absurd hj hjoin_ne
      | cons d rest2 =>
        rw [show lastOK ('\n' :: d :: rest2) = lastOK (d :: rest2) from rfl, ← hj]
        exact ih (fun p hp => hall p (List.mem_cons_of_mem _ hp)) hlast'

theorem noAdjEmpty_append_left :
    ∀ (a b : List (List Char)), noAdjEmpty (a ++ b) = true → noAdjEmpty a = true := by
  intro a
  induction a with
  | nil => intro _ _; rfl
  | cons l a' ih =>
    intro b h
    have hc : ((!l.isEmpty || headNonEmpty (a' ++ b)) && noAdjEmpty (a' ++ b)) = true := h
    rw [Bool.and_eq_true] at hc
    have htail : noAdjEmpty a' = true := ih b hc.2
    cases a' with
    | nil =>
      show ((!l.isEmpty || headNonEmpty ([] : List (List Char))) && noAdjEmpty []) = true
      simp [headNonEmpty, noAdjEmpty]
    | cons m a'' =>
      show ((!l.isEmpty || headNonEmpty (m :: a'')) && noAdjEmpty (m :: a'')) = true
      rw [Bool.and_eq_true]
      refine ⟨?_, htail⟩
      have : headNonEmpty ((m :: a'') ++ b) = headNonEmpty (m :: a'') := rfl
      rw [← this]
      exact hc.1

theorem lastNonEmpty_of_adj :
    ∀ (init : List (List Char)), noAdjEmpty (init ++ [[]]) = true → init ≠ [] →
      lastNonEmpty init = true := by
  intro init
  induction init with
  | nil => intro _ h; exact absurd rfl h
  | cons l init' ih =>
    intro hadj _
    cases init' with
    | nil =>
      have hc : ((!l.isEmpty || headNonEmpty [([] : List Char)]) && noAdjEmpty [([] : List Char)]) = true := hadj
      rw [Bool.and_eq_true] at hc
      have : (!l.isEmpty || false) = true := by
        have h1 := hc.1
        simpa [headNonEmpty] using h1
      simp only [lastNonEmpty]
      simpa using this
    | cons l2 init'' =>
      have hc : ((!l.isEmpty || headNonEmpty ((l2 :: init'') ++ [[]])) &&
          noAdjEmpty ((l2 :: init'') ++ [[]])) = true := hadj
      rw [Bool.and_eq_true] at hc
      show lastNonEmpty (l2 :: init'') = true
      exact ih hc.2 (by simp)

theorem trimRight_append_ws {c : Char} (hws : isJsWhitespace c = true) :
    ∀ (x : List Char), trimRight (x ++ [c]) = trimRight x := by
  intro x
  induction x with
  | nil => simp [trimRight, hws]
  | cons c0 x' ih =>
    rw [List.cons_append, trimRight, ih, trimRight]

theorem join_append_nilLast :
    ∀ (ls : List (List Char)), ls ≠ [] →
      joinLines (ls ++ [[]]) = joinLines ls ++ ['\n'] := by
  intro ls
  induction ls with
  | nil => intro h; exact absurd rfl h
  | cons l rest ih =>
    intro _
    cases rest with
    | nil => rfl
    | cons l2 ls' =>
      show joinLines (l :: (l2 :: ls') ++ [[]]) = (l ++ '\n' :: joinLines (l2 :: ls')) ++ ['\n']
      rw [show joinLines (l :: (l2 :: ls') ++ [[]]) =
          l ++ '\n' :: joinLines ((l2 :: ls') ++ [[]]) from rfl]
      rw [ih (by simp)]
      simp

theorem lastNonEmpty_of_getLast? :
    ∀ (ls : List (List Char)) (x : List Char), ls.getLast? = some x → x ≠ [] →
      lastNonEmpty ls = true := by
  intro ls
  induction ls with
  | nil => intro x h _; simp at h
  | cons l rest ih =>
    intro x h hx
    cases rest with
    | nil =>
      simp only [lastNonEmpty]
      have hlx : l = x := by simpa using h
      rw [hlx]
      cases x with
      | nil => exact absurd rfl hx
      | cons a b => rfl
    | cons l2 ls' =>
      rw [List.getLast?_cons_cons] at h
      exact ih x h hx

/-! Goodness of the lines produced by one pass of `normalizeWhitespace`. -/

theorem collapseSpaceTab_no_tab :
    ∀ (l : List Char), ∀ c ∈ collapseSpaceTab l, c ≠ '\t' := by
  intro l
  induction l with
  | nil => intro c hc; simp [collapseSpaceTab] at hc
  | cons c0 rest ih =>
    intro c hc
    cases rest with
    | nil =>
      by_cases h0 : isSpaceTab c0
      · simp [collapseSpaceTab, h0] at hc
        simp [hc]
      · simp [collapseSpaceTab, h0] at hc
        subst hc
        intro he
        rw [he] at h0
        exact h0 (by decide)
    | cons d rest' =>
      rw [collapseSpaceTab] at hc
      by_cases hcd : (isSpaceTab c0 && isSpaceTab d)
      · rw [if_pos hcd] at hc
        exact ih c hc
      · rw [if_neg hcd] at hc
        rcases List.mem_cons.1 hc with h | h
        · by_cases h0 : isSpaceTab c0
          · rw [if_pos h0] at h
            simp [h]
          · rw [if_neg h0] at h
            subst h
            intro he
            rw [he] at h0
            exact h0 (by decide)
        · exact ih c h

theorem collapseSpaceTab_noDouble :
    ∀ (l : List Char), noDoubleSpace (collapseSpaceTab l) = true := by
  intro l
  induction l with
  | nil => rfl
  | cons c0 rest ih =>
    cases rest with
    | nil =>
      by_cases h0 : isSpaceTab c0 <;>
        simp [collapseSpaceTab, h0, noDoubleSpace, runBounded]
    | cons d rest' =>
      rw [collapseSpaceTab]
      by_cases hcd : (isSpaceTab c0 && isSpaceTab d)
      · rw [if_pos hcd]
        exact ih
      · rw [if_neg hcd]
        by_cases h0 : isSpaceTab c0
        · have hd : isSpaceTab d = false := by
            rcases Bool.and_eq_false_iff.1 (by simpa using hcd) with h | h
            · exact absurd h0 (by simp [h])
            · exact h
          have hdsp : d ≠ ' ' := by
            intro he
            rw [he] at hd
            simp [isSpaceTab] at hd
          rw [if_pos h0]
          rw [collapseSpaceTab_head_nonST rest' hd] at ih ⊢
          unfold noDoubleSpace at ih ⊢
          rw [show runBounded (fun c => c = ' ') 2 (' ' :: d :: collapseSpaceTab rest') 0 =
              (decide (0 + 1 < 2) &&
                runBounded (fun c => c = ' ') 2 (d :: collapseSpaceTab rest') 1) from by
            simp [runBounded]]
          simp only [Bool.and_eq_true]
          refine ⟨by simp, ?_⟩
          rw [runBounded_cons_neg (by simp [hdsp])] at ih ⊢
          exact ih
        · rw [if_neg h0]
          have hc0 : c0 ≠ ' ' := by
            intro he
            rw [he] at h0
            exact h0 (by decide)
          unfold noDoubleSpace at ih ⊢
          rw [runBounded_cons_neg (by simp [hc0])]
          exact ih

theorem trimLeft_headOKC (l : List Char) : headOKC (trimLeft l) = true := by
  cases h : trimLeft l with
  | nil => rfl
  | cons c t =>
    show (!isJsWhitespace c) = true
    have := dropWhile_head_not l c t h
    simp [this]

theorem trimRight_head :
    ∀ (c : Char) (rest : List Char),
      trimRight (c :: rest) = [] ∨ ∃ t, trimRight (c :: rest) = c :: t := by
  intro c rest
  rw [trimRight]
  cases hm : trimRight rest with
  | nil =>
    by_cases hc : isJsWhitespace c
    · rw [if_pos hc]; exact Or.inl rfl
    · rw [if_neg hc]; exact Or.inr ⟨[], rfl⟩
  | cons d t => exact Or.inr ⟨d :: t, rfl⟩

theorem trimStr_headOKC (l : List Char) : headOKC (trimStr l) = true := by
  unfold trimStr
  cases h : trimLeft l with
  | nil => rfl
  | cons c t =>
    have hok : (!isJsWhitespace c) = true := by
      have h2 := trimLeft_headOKC l
      rw [h] at h2
      exact h2
    rcases trimRight_head c t with h2 | ⟨t', h2⟩
    · rw [h2]; rfl
    · rw [h2]
      show (!isJsWhitespace c) = true
      exact hok

theorem trimRight_lastOK : ∀ (l : List Char), lastOK (trimRight l) = true := by
  intro l
  induction l with
  | nil => rfl
  | cons c rest ih =>
    rw [trimRight]
    cases hm : trimRight rest with
    | nil =>
      by_cases hc : isJsWhitespace c
      · rw [if_pos hc]; rfl
      · rw [if_neg hc]
        show (!isJsWhitespace c) = true
        simp [hc]
    | cons d t =>
      show lastOK (c :: d :: t) = true
      rw [show lastOK (c :: d :: t) = lastOK (d :: t) from rfl, ← hm]
      exact ih

theorem trimStr_lastOK (l : List Char) : lastOK (trimStr l) = true :=
  trimRight_lastOK (trimLeft l)

theorem processLine_good (l : List Char)
    (hnl : ∀ c ∈ l, c ≠ '\n')
    (hzs : ∀ c ∈ l, (!isZs c || c = ' ') = true) :
    goodLine (processLine l) = true := by
  unfold goodLine
  simp only [Bool.and_eq_true]
  refine ⟨⟨⟨?_, noDouble_trimStr _ (collapseSpaceTab_noDouble l)⟩, trimStr_headOKC _⟩,
    trimStr_lastOK _⟩
  rw [List.all_eq_true]
  intro c hc
  have hmem : c ∈ collapseSpaceTab l := mem_trimStr hc
  have htab : c ≠ '\t' := collapseSpaceTab_no_tab l c hmem
  rcases mem_collapseSpaceTab l c hmem with h | h
  · subst h; decide
  · simp only [Bool.and_eq_true, decide_eq_true_eq]
    exact ⟨⟨hnl c h, htab⟩, by simpa using hzs c h⟩

theorem zsToSpace_id (l : List Char) (h : ∀ c ∈ l, (!isZs c || c = ' ') = true) :
    zsToSpace l = l := by
  unfold zsToSpace
  induction l with
  | nil => rfl
  | cons c rest ih =>
    rw [List.map_cons]
    have hc := h c (List.mem_cons_self _ _)
    have hcs : (if isZs c then ' ' else c) = c := by
      by_cases hz : isZs c
      · rw [if_pos hz]
        simp only [Bool.or_eq_true, Bool.not_eq_true', decide_eq_true_eq] at hc
        rcases hc with h2 | h2
        · rw [hz] at h2; cases h2
        · rw [h2]
      · rw [if_neg hz]
    rw [hcs, ih (fun d hd => h d (List.mem_cons_of_mem _ hd))]

/-! Decomposing the output of `normalizeWhitespace` as a join of
normalized lines, and the fixed-point property on such joins. -/

theorem goodLine_noDouble {p : List Char} (h : goodLine p = true) :
    noDoubleSpace p = true := by
  unfold goodLine at h
  simp only [Bool.and_eq_true] at h
  exact h.1.1.2

theorem goodLine_headOKC {p : List Char} (h : goodLine p = true) :
    headOKC p = true := by
  unfold goodLine at h
  simp only [Bool.and_eq_true] at h
  exact h.1.2

theorem goodLine_lastOK {p : List Char} (h : goodLine p = true) :
    lastOK p = true := by
  unfold goodLine at h
  simp only [Bool.and_eq_true] at h
  exact h.2

theorem goodLine_no_nl {p : List Char} (h : goodLine p = true) : '\n' ∉ p := by
  unfold goodLine at h
  simp only [Bool.and_eq_true, List.all_eq_true] at h
  intro hmem
  have h2 := h.1.1.1 '\n' hmem
  simp at h2

theorem goodLine_zs {p : List Char} (h : goodLine p = true) :
    ∀ c ∈ p, (!isZs c || c = ' ') = true := by
  unfold goodLine at h
  simp only [Bool.and_eq_true, List.all_eq_true] at h
  intro c hc
  have h2 := h.1.1.1 c hc
  simp only [Bool.and_eq_true] at h2
  exact h2.2

theorem trimStr_collapse_join_shape (ks : List (List Char))
    (hgood : ∀ p ∈ ks, goodLine p = true)
    (hadj : noAdjEmpty ks = true)
    (hhd : headNonEmpty ks = true) :
    trimStr (collapse2Spaces (joinLines ks)) = [] ∨
    ∃ ls : List (List Char), (ls ≠ [] ∧ (∀ p ∈ ls, goodLine p = true) ∧
      noAdjEmpty ls = true ∧ headNonEmpty ls = true ∧ lastNonEmpty ls = true) ∧
      trimStr (collapse2Spaces (joinLines ks)) = joinLines ls := by
  cases hk : ks with
  | nil => left; rfl
  | cons l0 ks0 =>
    rw [← hk]
    have hksne : ks ≠ [] := by rw [hk]; simp
    have hndj : noDoubleSpace (joinLines ks) = true :=
      join_noDouble ks (fun q hq => goodLine_noDouble (hgood q hq))
    by_cases hlastq : ks.getLast? = some ([] : List Char)
    · have hgl : ks.getLast hksne = [] := by
        have := List.getLast?_eq_getLast ks hksne
        rw [hlastq] at this
        exact (Option.some_injective _ this).symm
      have hdecomp : ks = ks.dropLast ++ [[]] := by
        conv_lhs => rw [← List.dropLast_append_getLast hksne]
        rw [hgl]
      have hinitne : ks.dropLast ≠ [] := by
        intro he
        rw [he] at hdecomp
        rw [hdecomp] at hhd
        simp [headNonEmpty] at hhd
      have hsub : ∀ p ∈ ks.dropLast, p ∈ ks := by
        intro p hp
        rw [hdecomp]
        exact List.mem_append_left _ hp
      have hgood' : ∀ p ∈ ks.dropLast, goodLine p = true :=
        fun p hp => hgood p (hsub p hp)
      have hadj' : noAdjEmpty ks.dropLast = true := by
        refine noAdjEmpty_append_left ks.dropLast [[]] ?_
        rw [← hdecomp]
        exact hadj
      have hlast' : lastNonEmpty ks.dropLast = true := by
        refine lastNonEmpty_of_adj ks.dropLast ?_ hinitne
        rw [← hdecomp]
        exact hadj
      have hhd' : headNonEmpty ks.dropLast = true := by
        cases hi : ks.dropLast with
        | nil => exact absurd hi hinitne
        | cons i0 irest =>
          have : headNonEmpty ks = headNonEmpty (i0 :: irest) := by
            rw [hdecomp, hi]
            rfl
          rw [← this]
          exact hhd
      right
      refine ⟨ks.dropLast, ⟨hinitne, hgood', hadj', hhd', hlast'⟩, ?_⟩
      have hjoin : joinLines ks = joinLines ks.dropLast ++ ['\n'] := by
        conv_lhs => rw [hdecomp]
        exact join_append_nilLast ks.dropLast hinitne
      rw [hjoin] at hndj ⊢
      rw [collapse2Spaces_id _ hndj]
      unfold trimStr
      rw [trimLeft_id (joinLines ks.dropLast ++ ['\n']) ?_]
      · rw [trimRight_append_ws (by decide) (joinLines ks.dropLast)]
        exact trimRight_id _
          (join_lastOK ks.dropLast (fun p hp => goodLine_lastOK (hgood' p hp)) hlast')
      · rw [headOKC_append _ _ (join_ne_nil ks.dropLast hlast' hinitne)]
        exact join_headOKC ks.dropLast hhd' (fun p hp => goodLine_headOKC (hgood' p hp))
    · have hlast : lastNonEmpty ks = true := by
        cases hgl : ks.getLast? with
        | none =>
          rw [hk] at hgl
          simp [List.getLast?_eq_getLast] at hgl
        | some x =>
          refine lastNonEmpty_of_getLast? ks x hgl ?_
          intro he
          subst he
          exact hlastq hgl
      right
      refine ⟨ks, ⟨hksne, hgood, hadj, hhd, hlast⟩, ?_⟩
      rw [collapse2Spaces_id _ hndj]
      exact trimStr_id _
        (join_headOKC ks hhd (fun p hp => goodLine_headOKC (hgood p hp)))
        (join_lastOK ks (fun p hp => goodLine_lastOK (hgood p hp)) hlast)

theorem normalizeWhitespace_shape (t : List Char) :
    normalizeWhitespace t = [] ∨
    ∃ ls : List (List Char), (ls ≠ [] ∧ (∀ p ∈ ls, goodLine p = true) ∧
      noAdjEmpty ls = true ∧ headNonEmpty ls = true ∧ lastNonEmpty ls = true) ∧
      normalizeWhitespace t = joinLines ls := by
  have hgoodkept : ∀ p ∈ dropBlanks ((splitLines (zsToSpace t)).map processLine) true,
      goodLine p = true := by
    intro p hp
    rcases mem_dropBlanks _ _ p hp with h | h
    · subst h; decide
    · rcases List.mem_map.1 h with ⟨l0, hl0, he⟩
      subst he
      refine processLine_good l0 ?_ ?_
      · intro c hc heq
        exact splitLines_no_nl _ l0 hl0 (heq ▸ hc)
      · intro c hc
        rcases mem_zsToSpace (mem_splitLines _ l0 hl0 c hc) with h2 | h2
        · subst h2; decide
        · simp [h2.2]
  have hadjk := (dropBlanks_adj ((splitLines (zsToSpace t)).map processLine) true).1
  have hhdk := (dropBlanks_adj ((splitLines (zsToSpace t)).map processLine) true).2 rfl
  exact trimStr_collapse_join_shape _ hgoodkept hadjk hhdk

/-- Claim C10: `normalizeWhitespace` is idempotent — its output is left
unchanged by a second application of the whole pass. -/
theorem normalizeWhitespace_idempotent (t : List Char) :
    normalizeWhitespace (normalizeWhitespace t) = normalizeWhitespace t := by
  have fixed : ∀ ls : List (List Char), ls ≠ [] →
      (∀ p ∈ ls, goodLine p = true) → noAdjEmpty ls = true →
      headNonEmpty ls = true → lastNonEmpty ls = true →
      normalizeWhitespace (joinLines ls) = joinLines ls := by
    intro ls hne hgood hadj hhd hlast
    have hchars : ∀ c ∈ joinLines ls, (!isZs c || c = ' ') = true := by
      intro c hc
      rcases mem_joinLines ls c hc with h | ⟨p, hp, hcp⟩
      · subst h; decide
      · exact goodLine_zs (hgood p hp) c hcp
    unfold normalizeWhitespace
    rw [zsToSpace_id _ hchars]
    rw [split_join ls hne (fun p hp => goodLine_no_nl (hgood p hp))]
    rw [map_processLine_id ls hgood]
    rw [dropBlanks_id ls true hadj (fun _ => hhd)]
    rw [collapse2Spaces_id _ (join_noDouble ls (fun q hq => goodLine_noDouble (hgood q hq)))]
    exact trimStr_id _
      (join_headOKC ls hhd (fun p hp => goodLine_headOKC (hgood p hp)))
      (join_lastOK ls (fun p hp => goodLine_lastOK (hgood p hp)) hlast)
  rcases normalizeWhitespace_shape t with h | ⟨ls, ⟨hne, hgood, hadj, hhd, hlast⟩, heq⟩
  · rw [h]
    rfl
  · rw [heq]
    exact fixed ls hne hgood hadj hhd hlast

/-! Evaluation of the Safe Links matcher on a well-formed wrapped URL,
for claim C5. -/

theorem takeWhile_append_all {p : Char → Bool} :
    ∀ (a b : List Char), (∀ c ∈ a, p c = true) →
      (a ++ b).takeWhile p = a ++ b.takeWhile p := by
  intro a
  induction a with
  | nil => intro b _; rfl
  | cons c a' ih =>
    intro b h
    rw [List.cons_append, List.takeWhile_cons, if_pos (h c (List.mem_cons_self _ _)),
      ih b (fun d hd => h d (List.mem_cons_of_mem _ hd))]
    rfl

theorem startsWithCI_self_append :
    ∀ (p x : List Char), (∀ c ∈ p, lower c = c) → startsWithCI p (p ++ x) = true := by
  intro p
  induction p with
  | nil => intro x _; rfl
  | cons c p' ih =>
    intro x h
    rw [List.cons_append]
    simp only [startsWithCI, Bool.and_eq_true, decide_eq_true_eq]
    exact ⟨h c (List.mem_cons_self _ _), ih x (fun d hd => h d (List.mem_cons_of_mem _ hd))⟩

theorem safeLinkMatchAt_hit (host cap rest0 : List Char)
    (hhostne : host ≠ []) (hhost : ∀ c ∈ host, isAlnumCI c = true)
    (hcapne : cap ≠ []) (hcap : ∀ c ∈ cap, c ≠ '&')
    (hr0 : rest0.takeWhile (fun c => decide (c ≠ '&')) = []) :
    safeLinkMatchAt (("https://".toList) ++ (host ++ (safeLinkLit ++ (cap ++ rest0)))) =
      some (4 + host.length + safeLinkLit.length + cap.length + slmTailLen rest0, cap) := by
  have hhe : host.isEmpty = false := by
    cases host with
    | nil => exact absurd rfl hhostne
    | cons a b => rfl
  have hce : cap.isEmpty = false := by
    cases cap with
    | nil => exact absurd rfl hcapne
    | cons a b => rfl
  have hlit : safeLinkLit = '.' :: (("safelinks.protection.outlook.com/?url=".toList)) := rfl
  have core : ∀ r0 : List Char, r0.takeWhile (fun c => decide (c ≠ '&')) = [] →
      safeLinkMatchAt (("https://".toList) ++ (host ++ (safeLinkLit ++ (cap ++ r0)))) =
        slmTail 1 host cap r0 := by
    intro r0 hr
    unfold safeLinkMatchAt
    rw [if_pos (show startsWithCI (['h', 't', 't', 'p'])
      (("https://".toList) ++ (host ++ (safeLinkLit ++ (cap ++ r0)))) = true from rfl)]
    rw [show (("https://".toList) ++ (host ++ (safeLinkLit ++ (cap ++ r0)))).drop 4 =
      's' :: ':' :: '/' :: '/' :: (host ++ (safeLinkLit ++ (cap ++ r0))) from rfl]
    rw [show slmHasS ('s' :: ':' :: '/' :: '/' :: (host ++ (safeLinkLit ++ (cap ++ r0)))) = 1
      from rfl]
    rw [show ('s' :: ':' :: '/' :: '/' :: (host ++ (safeLinkLit ++ (cap ++ r0)))).drop 1 =
      ':' :: '/' :: '/' :: (host ++ (safeLinkLit ++ (cap ++ r0))) from rfl]
    unfold slmHost
    rw [if_pos (show startsWithCI ([':', '/', '/'])
      (':' :: '/' :: '/' :: (host ++ (safeLinkLit ++ (cap ++ r0)))) = true from rfl)]
    rw [show (':' :: '/' :: '/' :: (host ++ (safeLinkLit ++ (cap ++ r0)))).drop 3 =
      host ++ (safeLinkLit ++ (cap ++ r0)) from rfl]
    rw [takeWhile_append_all host _ hhost]
    rw [show (safeLinkLit ++ (cap ++ r0)).takeWhile isAlnumCI = [] from by
      rw [hlit, List.cons_append, List.takeWhile_cons, if_neg (by decide)]]
    rw [List.append_nil, List.drop_left]
    unfold slmCap
    rw [if_neg (by simp [hhe])]
    rw [if_pos (startsWithCI_self_append safeLinkLit _ (by decide))]
    rw [List.drop_left]
    rw [takeWhile_append_all cap _ (fun c hc => by simp [hcap c hc])]
    rw [hr, List.append_nil, List.drop_left]
  rw [core rest0 hr0]
  unfold slmTail
  rw [if_neg (by simp [hce])]

theorem unwrapSafeLinksF_nil : ∀ (fuel : Nat), unwrapSafeLinksF fuel [] = [] := by
  intro fuel
  cases fuel <;> rfl

theorem unwrapSafeLinksF_skip :
    ∀ (pre : List Char), (∀ c ∈ pre, lower c ≠ 'h') →
      ∀ (fuel : Nat) (x : List Char),
        unwrapSafeLinksF (pre.length + fuel) (pre ++ x) = pre ++ unwrapSafeLinksF fuel x := by
  intro pre
  induction pre with
  | nil =>
    intro _ fuel x
    simp
  | cons c pre' ih =>
    intro h fuel x
    have hc := h c (List.mem_cons_self _ _)
    have hm : safeLinkMatchAt (c :: (pre' ++ x)) = none := by
      unfold safeLinkMatchAt
      rw [if_neg ?_]
      simp [startsWithCI, hc]
    have hlen : (c :: pre').length + fuel = (pre'.length + fuel) + 1 := by
      simp only [List.length_cons]
      omega
    rw [List.cons_append, hlen]
    rw [show unwrapSafeLinksF ((pre'.length + fuel) + 1) (c :: (pre' ++ x)) =
        c :: unwrapSafeLinksF (pre'.length + fuel) (pre' ++ x) from by
      simp only [unwrapSafeLinksF, hm]]
    rw [ih (fun d hd => h d (List.mem_cons_of_mem _ hd)) fuel x]
    rfl

theorem unwrapSafeLinks_hit_general (pre host cap rest0 : List Char)
    (hpre : ∀ c ∈ pre, lower c ≠ 'h')
    (hhostne : host ≠ []) (hhost : ∀ c ∈ host, isAlnumCI c = true)
    (hcapne : cap ≠ []) (hcap : ∀ c ∈ cap, c ≠ '&')
    (hr0 : rest0.takeWhile (fun c => decide (c ≠ '&')) = [])
    (hlen0 : slmTailLen rest0 = rest0.length) :
    unwrapSafeLinks (pre ++ (("https://".toList) ++ (host ++ (safeLinkLit ++ (cap ++ rest0))))) =
      pre ++ (decodePercent cap).getD
        (("https://".toList) ++ (host ++ (safeLinkLit ++ (cap ++ rest0)))) := by
  have hhit := safeLinkMatchAt_hit host cap rest0 hhostne hhost hcapne hcap hr0
  unfold unwrapSafeLinks
  rw [List.length_append]
  rw [unwrapSafeLinksF_skip pre hpre _ _]
  congr 1
  rw [show (("https://".toList) ++ (host ++ (safeLinkLit ++ (cap ++ rest0)))) =
    'h' :: ('t' :: 't' :: 'p' :: 's' :: ':' :: '/' :: '/' ::
      (host ++ (safeLinkLit ++ (cap ++ rest0)))) from rfl]
  rw [List.length_cons]
  rw [show unwrapSafeLinksF
      (('t' :: 't' :: 'p' :: 's' :: ':' :: '/' :: '/' ::
        (host ++ (safeLinkLit ++ (cap ++ rest0)))).length + 1)
      ('h' :: ('t' :: 't' :: 'p' :: 's' :: ':' :: '/' :: '/' ::
        (host ++ (safeLinkLit ++ (cap ++ rest0))))) =
    (match decodePercent cap with
     | some d => d
     | none => 'h' :: (('t' :: 't' :: 'p' :: 's' :: ':' :: '/' :: '/' ::
         (host ++ (safeLinkLit ++ (cap ++ rest0)))).take
           (3 + (4 + host.length + safeLinkLit.length + cap.length + slmTailLen rest0))) ) ++
      unwrapSafeLinksF
        ('t' :: 't' :: 'p' :: 's' :: ':' :: '/' :: '/' ::
          (host ++ (safeLinkLit ++ (cap ++ rest0)))).length
        (('t' :: 't' :: 'p' :: 's' :: ':' :: '/' :: '/' ::
          (host ++ (safeLinkLit ++ (cap ++ rest0)))).drop
            (3 + (4 + host.length + safeLinkLit.length + cap.length + slmTailLen rest0)))
    from by
      simp only [unwrapSafeLinksF]
      rw [show safeLinkMatchAt ('h' :: ('t' :: 't' :: 'p' :: 's' :: ':' :: '/' :: '/' ::
        (host ++ (safeLinkLit ++ (cap ++ rest0))))) =
        some (4 + host.length + safeLinkLit.length + cap.length + slmTailLen rest0, cap)
        from hhit]]
  have harith : 3 + (4 + host.length + safeLinkLit.length + cap.length + slmTailLen rest0) =
      ('t' :: 't' :: 'p' :: 's' :: ':' :: '/' :: '/' ::
        (host ++ (safeLinkLit ++ (cap ++ rest0)))).length := by
    simp only [List.length_cons, List.length_append]
    omega
  rw [harith, List.drop_length, List.take_length, unwrapSafeLinksF_nil, List.append_nil]
  cases hdp : decodePercent cap with
  | some d => rfl
  | none => rfl
/-- Claim C5: in any text, a wrapped Safe Links URL (with or without a
trailing `&...` parameter section) is replaced, as a whole, by the
percent-decoded destination parameter; when decoding fails the whole
matched substring is kept verbatim — never partially decoded, never
empty.  The text before the match passes through unchanged. -/
theorem unwrapSafeLinks_unwraps (pre host cap tail : List Char)
    (hpre : ∀ c ∈ pre, lower c ≠ 'h')
    (hhostne : host ≠ []) (hhost : ∀ c ∈ host, isAlnumCI c = true)
    (hcapne : cap ≠ []) (hcap : ∀ c ∈ cap, c ≠ '&')
    (htail : ∀ c ∈ tail, isTailChar c = true) :
    unwrapSafeLinks (pre ++ (("https://".toList) ++ (host ++ (safeLinkLit ++ cap)))) =
      pre ++ (decodePercent cap).getD
        (("https://".toList) ++ (host ++ (safeLinkLit ++ cap))) ∧
    unwrapSafeLinks
        (pre ++ (("https://".toList) ++ (host ++ (safeLinkLit ++ (cap ++ ('&' :: tail)))))) =
      pre ++ (decodePercent cap).getD
        (("https://".toList) ++ (host ++ (safeLinkLit ++ (cap ++ ('&' :: tail))))) := by
  constructor
  · have h := unwrapSafeLinks_hit_general pre host cap [] hpre hhostne hhost hcapne hcap
      (by rfl) (by rfl)
    rw [List.append_nil] at h
    exact h
  · refine unwrapSafeLinks_hit_general pre host cap ('&' :: tail) hpre hhostne hhost hcapne hcap
      (by rw [List.takeWhile_cons, if_neg (by simp)]) ?_
    show slmTailLen ('&' :: tail) = ('&' :: tail).length
    rw [show slmTailLen ('&' :: tail) = 1 + (tail.takeWhile isTailChar).length from rfl]
    rw [show tail.takeWhile isTailChar = tail from by
      have := takeWhile_append_all tail [] htail
      simpa using this]
    simp [List.length_cons]
    omega

/-- Witness for C5: one wrapped link with a well-formed destination
decodes to the bare URL, and one with malformed percent-encoding is
kept verbatim, in both cases dropping nothing else. -/
theorem unwrapSafeLinks_unwraps_witness :
    unwrapSafeLinks (("see: ".toList) ++ (("https://".toList) ++ (("na01".toList) ++
        (safeLinkLit ++ (("https%3A%2F%2Fexample.com".toList) ++
          ('&' :: ("data=05".toList))))))) =
      ("see: ".toList) ++ ((decodePercent (("https%3A%2F%2Fexample.com".toList))).getD
        (("https://".toList) ++ (("na01".toList) ++ (safeLinkLit ++
          (("https%3A%2F%2Fexample.com".toList) ++ ('&' :: ("data=05".toList))))))) ∧
    unwrapSafeLinks (("see: ".toList) ++ (("https://".toList) ++ (("na01".toList) ++
        (safeLinkLit ++ ("bad%ZZ".toList))))) =
      ("see: ".toList) ++ ((decodePercent (("bad%ZZ".toList))).getD
        (("https://".toList) ++ (("na01".toList) ++ (safeLinkLit ++ ("bad%ZZ".toList))))) :=
  ⟨(unwrapSafeLinks_unwraps (("see: ".toList)) (("na01".toList))
      (("https%3A%2F%2Fexample.com".toList)) (("data=05".toList))
      (by decide) (by decide) (by decide) (by decide) (by decide) (by decide)).2,
    (unwrapSafeLinks_unwraps (("see: ".toList)) (("na01".toList))
      (("bad%ZZ".toList)) ([])
      (by decide) (by decide) (by decide) (by decide) (by decide) (by decide)).1⟩


theorem startsWithCI_head_false {t0 : Char} {p' : List Char} {c : Char} {rest : List Char}
    (h : (decide (lower c = t0)) = false) :
    startsWithCI (t0 :: p') (c :: rest) = false := by
  simp only [startsWithCI, h, Bool.false_and]

theorem startsWithCI_cons2_false {t0 : Char} {p' : List Char} {c2 : Char} {rest : List Char}
    (h : (decide (lower c2 = t0)) = false) :
    startsWithCI ('<' :: t0 :: p') ('<' :: c2 :: rest) = false := by
  simp only [startsWithCI, h, Bool.false_and, Bool.and_false]

theorem noTagStart_cons_fail {pat : List Char} {c : Char} {rest : List Char}
    (h : startsWithCI pat (c :: rest) = false) :
    noTagStart pat (c :: rest) = noTagStart pat rest := by
  simp only [noTagStart, h, Bool.not_false, Bool.true_and]

theorem noTagStart_cons_nonlt {p' : List Char} {c : Char} {rest : List Char}
    (h : (decide (lower c = '<')) = false) :
    noTagStart ('<' :: p') (c :: rest) = noTagStart ('<' :: p') rest :=
  noTagStart_cons_fail (startsWithCI_head_false h)

theorem noTagStart_append_nonlt {p' : List Char} :
    ∀ (a b : List Char), (∀ c ∈ a, (decide (lower c = '<')) = false) →
      noTagStart ('<' :: p') (a ++ b) = noTagStart ('<' :: p') b := by
  intro a
  induction a with
  | nil => intro b _; rfl
  | cons c a' ih =>
    intro b h
    rw [List.cons_append, noTagStart_cons_nonlt (h c (List.mem_cons_self _ _)),
      ih b (fun d hd => h d (List.mem_cons_of_mem _ hd))]

theorem noTagStart_no_lt {p' : List Char} (l : List Char)
    (h : ∀ c ∈ l, (decide (lower c = '<')) = false) :
    noTagStart ('<' :: p') l = true := by
  have h2 := @noTagStart_append_nonlt p' l [] h
  rw [List.append_nil] at h2
  rw [h2]
  rfl

theorem matchTagAt_none_of_fail {tag attr : List Char} {paired : Bool} {s : List Char}
    (h : startsWithCI ('<' :: tag) s = false) :
    matchTagAt tag attr paired s = none := by
  simp [matchTagAt, h]

theorem replaceTagF_nil (tag attr : List Char) (paired : Bool) :
    ∀ fuel, replaceTagF tag attr paired fuel [] = [] := by
  intro fuel; cases fuel <;> rfl

theorem replaceTagF_id (tag attr : List Char) (paired : Bool) :
    ∀ (l : List Char) (fuel : Nat), noTagStart ('<' :: tag) l = true →
      replaceTagF tag attr paired fuel l = l := by
  intro l
  induction l with
  | nil => intro fuel _; exact replaceTagF_nil _ _ _ _
  | cons c rest ih =>
    intro fuel h
    cases fuel with
    | zero => rfl
    | succ f =>
      simp only [noTagStart, Bool.and_eq_true, Bool.not_eq_true'] at h
      simp only [replaceTagF, matchTagAt_none_of_fail h.1]
      rw [ih f h.2]

theorem replaceTag_id {tag attr : List Char} {paired : Bool} {l : List Char}
    (h : noTagStart ('<' :: tag) l = true) :
    replaceTag tag attr paired l = l :=
  replaceTagF_id tag attr paired l l.length h

theorem goodUrl_ws {c : Char} (h : goodUrlChar c = true) : isJsWhitespace c = false := by
  simp only [goodUrlChar, Bool.and_eq_true, Bool.not_eq_true'] at h
  exact h.1.1.1

theorem goodUrl_q {c : Char} (h : goodUrlChar c = true) : isQuoteC c = false := by
  simp only [goodUrlChar, Bool.and_eq_true, Bool.not_eq_true'] at h
  exact h.1.1.2

theorem goodUrl_gt {c : Char} (h : goodUrlChar c = true) : (decide (c ≠ '>')) = true := by
  simp only [goodUrlChar, Bool.and_eq_true, Bool.not_eq_true'] at h
  exact h.1.2

theorem goodUrl_lt {c : Char} (h : goodUrlChar c = true) : (decide (lower c = '<')) = false := by
  simp only [goodUrlChar, Bool.and_eq_true, Bool.not_eq_true'] at h
  exact h.2

theorem matchAttr_none_head {attr : List Char} {s : List Char}
    (h : ∀ c t, s = c :: t → isJsWhitespace c = false) :
    matchAttr attr s = none := by
  cases s with
  | nil => rfl
  | cons c t => simp [matchAttr, h c t rfl]

theorem matchAttr_none_all (attr : List Char) :
    ∀ (w z : List Char), (∀ c ∈ w, isJsWhitespace c = false) →
      (∀ c t, z = c :: t → isJsWhitespace c = false) →
      ∀ j, j ≤ w.length → matchAttr attr ((w ++ z).drop j) = none := by
  intro w
  induction w with
  | nil =>
    intro z _ hz j hj
    have hj0 : j = 0 := Nat.le_zero.mp hj
    subst hj0
    simpa using matchAttr_none_head hz
  | cons c w' ih =>
    intro z hw hz j hj
    cases j with
    | zero =>
      rw [List.drop_zero, List.cons_append]
      refine matchAttr_none_head (fun d t hdt => ?_)
      injection hdt with h1 _
      rw [← h1]
      exact hw c (List.mem_cons_self _ _)
    | succ j' =>
      rw [List.cons_append, List.drop_succ_cons]
      exact ih z (fun d hd => hw d (List.mem_cons_of_mem _ hd)) hz j' (Nat.succ_le_succ_iff.mp hj)

theorem searchX_skip (attr : List Char) (close : List Char → Option Nat) (s : List Char) :
    ∀ (k : Nat), (∀ j, 1 ≤ j → j ≤ k → matchAttr attr (s.drop j) = none) →
      searchX attr close s k = searchX attr close s 0 := by
  intro k
  induction k with
  | zero => intro _; rfl
  | succ k' ih =>
    intro h
    simp only [searchX, h (k' + 1) (by omega) (by omega)]
    exact ih (fun j h1 h2 => h j h1 (by omega))

theorem matchAttr_hit (attr u post : List Char)
    (hattr : ∀ c ∈ attr, lower c = c)
    (hune : u ≠ []) (huq : ∀ c ∈ u, isQuoteC c = false) :
    matchAttr attr (' ' :: (attr ++ ('=' :: '"' :: (u ++ ('"' :: post))))) =
      some (u, attr.length + u.length + 4) := by
  have hsw : startsWithCI (attr ++ ['=']) (attr ++ ('=' :: '"' :: (u ++ ('"' :: post)))) = true := by
    have h2 := startsWithCI_self_append (attr ++ ['=']) ('"' :: (u ++ ('"' :: post)))
      (fun c hc => by
        rcases List.mem_append.mp hc with h | h
        · exact hattr c h
        · simp only [List.mem_singleton] at h
          subst h
          rfl)
    rw [List.append_assoc] at h2
    simpa using h2
  have hdrop1 : (attr ++ ('=' :: '"' :: (u ++ ('"' :: post)))).drop (attr.length + 1) =
      '"' :: (u ++ ('"' :: post)) := by
    rw [show attr ++ ('=' :: '"' :: (u ++ ('"' :: post))) =
        (attr ++ ['=']) ++ ('"' :: (u ++ ('"' :: post))) from by simp]
    rw [show attr.length + 1 = (attr ++ ['=']).length from by simp]
    exact List.drop_left _ _
  have hcap : (u ++ ('"' :: post)).takeWhile (fun d => !isQuoteC d) = u := by
    rw [takeWhile_append_all u ('"' :: post) (fun c hc => by rw [huq c hc]; rfl)]
    simp [List.takeWhile_cons, isQuoteC]
  have hdrop2 : (u ++ ('"' :: post)).drop u.length = '"' :: post := List.drop_left _ _
  have hne : u.isEmpty = false := by
    cases u with
    | nil => exact absurd rfl hune
    | cons a b => rfl
  simp only [matchAttr, hdrop1, hcap, hdrop2, hne, hsw,
    show isJsWhitespace ' ' = true from by decide]
  simp [isQuoteC]
theorem s1_drop_after (attr u post : List Char) :
    (' ' :: (attr ++ ('=' :: '"' :: (u ++ ('"' :: post))))).drop
      (attr.length + u.length + 4) = post := by
  rw [show (' ' :: (attr ++ ('=' :: '"' :: (u ++ ('"' :: post))))) =
      (' ' :: (attr ++ ('=' :: '"' :: (u ++ ['"'])))) ++ post from by
    simp [List.append_assoc]]
  rw [show attr.length + u.length + 4 =
      (' ' :: (attr ++ ('=' :: '"' :: (u ++ ['"'])))).length from by
    simp [List.length_append, List.length_cons]
    omega]
  exact List.drop_left _ _

theorem takeWhile_ne_gt_append (w z : List Char)
    (hw : ∀ c ∈ w, (decide (c ≠ '>')) = true)
    (hz : ∀ c t, z = c :: t → c = '>') :
    (w ++ z).takeWhile (fun c => decide (c ≠ '>')) = w := by
  rw [takeWhile_append_all w z hw]
  cases z with
  | nil => simp
  | cons c t =>
    rw [hz c t rfl]
    simp [List.takeWhile_cons]

theorem run_length_eval (w z : List Char)
    (hw : ∀ c ∈ w, (decide (c ≠ '>')) = true)
    (hz : ∀ c t, z = c :: t → c = '>') :
    ((' ' :: (w ++ z)).takeWhile (fun c => decide (c ≠ '>'))).length = w.length + 1 := by
  rw [List.takeWhile_cons]
  rw [if_pos (by decide)]
  rw [takeWhile_ne_gt_append w z hw hz]
  simp

theorem splitAtPatCI_hit (p' : List Char) :
    ∀ (inner rest : List Char), (∀ c ∈ inner, (decide (lower c = '<')) = false) →
      startsWithCI ('<' :: p') rest = true → rest ≠ [] →
      splitAtPatCI ('<' :: p') (inner ++ rest) =
        some (inner, rest.drop ('<' :: p').length) := by
  intro inner
  induction inner with
  | nil =>
    intro rest _ hsw hne
    rw [List.nil_append]
    cases rest with
    | nil => exact absurd rfl hne
    | cons c t => simp [splitAtPatCI, hsw]
  | cons i inner' ih =>
    intro rest hinner hsw hne
    rw [List.cons_append]
    have hfail : startsWithCI ('<' :: p') (i :: (inner' ++ rest)) = false :=
      startsWithCI_head_false (hinner i (List.mem_cons_self _ _))
    simp [splitAtPatCI, hfail,
      ih rest (fun d hd => hinner d (List.mem_cons_of_mem _ hd)) hsw hne]

theorem closeA_hit (tag inner : List Char)
    (htag : ∀ c ∈ tag, lower c = c)
    (hinner : ∀ c ∈ inner, (decide (lower c = '<')) = false) :
    closeA tag ('>' :: (inner ++ ('<' :: '/' :: (tag ++ ['>'])))) =
      some (1 + inner.length + (tag.length + 3)) := by
  have hlow : ∀ c ∈ '<' :: '/' :: (tag ++ ['>']), lower c = c := by
    intro c hc
    rcases List.mem_cons.mp hc with rfl | hc
    · decide
    rcases List.mem_cons.mp hc with rfl | hc
    · decide
    rcases List.mem_append.mp hc with hc | hc
    · exact htag c hc
    · simp only [List.mem_singleton] at hc
      subst hc
      decide
  have hsw : startsWithCI ('<' :: '/' :: (tag ++ ['>'])) ('<' :: '/' :: (tag ++ ['>'])) = true := by
    have h2 := startsWithCI_self_append ('<' :: '/' :: (tag ++ ['>'])) [] hlow
    rwa [List.append_nil] at h2
  have hsplit := splitAtPatCI_hit ('/' :: (tag ++ ['>'])) inner ('<' :: '/' :: (tag ++ ['>'])) hinner hsw (by simp)
  simp only [closeA, List.dropWhile_cons, List.takeWhile_cons,
    show (decide ('>' ≠ '>')) = false from by decide, if_false, Bool.false_eq_true,
    List.cons_append]
  rw [hsplit]
  simp

theorem closeB_gt (after0 : List Char) : closeB ('>' :: after0) = some 1 := by
  simp [closeB, List.dropWhile_cons, List.takeWhile_cons]

theorem closeB_slash_gt : closeB ('/' :: '>' :: []) = some 2 := by decide

theorem closeA_slash_gt (tag : List Char) : closeA tag ('/' :: '>' :: []) = none := by
  simp [closeA, List.dropWhile_cons, List.takeWhile_cons, splitAtPatCI]

theorem drop_tag (tag x : List Char) : ('<' :: (tag ++ x)).drop (tag.length + 1) = x := by
  rw [List.drop_succ_cons]
  exact List.drop_left _ _

theorem startsWithCI_tag (tag x : List Char) (htag : ∀ c ∈ tag, lower c = c) :
    startsWithCI ('<' :: tag) ('<' :: (tag ++ x)) = true := by
  have h2 := startsWithCI_self_append ('<' :: tag) x (fun c hc => by
    rcases List.mem_cons.mp hc with rfl | hc
    · decide
    · exact htag c hc)
  simpa using h2

theorem skip_all (attr w z : List Char)
    (hw : ∀ c ∈ w, isJsWhitespace c = false)
    (hz : ∀ c t, z = c :: t → isJsWhitespace c = false) :
    ∀ j, 1 ≤ j → j ≤ w.length + 1 → matchAttr attr ((' ' :: (w ++ z)).drop j) = none := by
  intro j h1 h2
  obtain ⟨j', rfl⟩ : ∃ j', j = j' + 1 := ⟨j - 1, by omega⟩
  rw [List.drop_succ_cons]
  exact matchAttr_none_all attr w z hw hz j' (by omega)

theorem matchTagAt_hit_A (tag attr u inner : List Char)
    (htag : ∀ c ∈ tag, lower c = c)
    (hattrl : ∀ c ∈ attr, lower c = c)
    (hattrws : ∀ c ∈ attr, isJsWhitespace c = false)
    (hattrgt : ∀ c ∈ attr, (decide (c ≠ '>')) = true)
    (hne : u ≠ []) (hu : ∀ c ∈ u, goodUrlChar c = true)
    (hinner : ∀ c ∈ inner, (decide (lower c = '<')) = false) :
    matchTagAt tag attr true
      ('<' :: (tag ++ (' ' :: (attr ++ ('=' :: '"' :: (u ++
        ('"' :: '>' :: (inner ++ ('<' :: '/' :: (tag ++ ['>'])))))))))) =
      some (u, attr.length + u.length + 4 + (1 + inner.length + (tag.length + 3))) := by
  have hbody : attr ++ ('=' :: '"' :: (u ++
      ('"' :: '>' :: (inner ++ ('<' :: '/' :: (tag ++ ['>'])))))) =
      (attr ++ ('=' :: '"' :: (u ++ ['"']))) ++
        ('>' :: (inner ++ ('<' :: '/' :: (tag ++ ['>'])))) := by
    simp [List.append_assoc]
  have hwws : ∀ c ∈ attr ++ ('=' :: '"' :: (u ++ ['"'])), isJsWhitespace c = false := by
    intro c hc
    simp only [List.mem_append, List.mem_cons, List.mem_singleton, List.not_mem_nil,
      or_false] at hc
    rcases hc with hc | rfl | rfl | hc | rfl
    · exact hattrws c hc
    · decide
    · decide
    · exact goodUrl_ws (hu c hc)
    · decide
  have hwgt : ∀ c ∈ attr ++ ('=' :: '"' :: (u ++ ['"'])), (decide (c ≠ '>')) = true := by
    intro c hc
    simp only [List.mem_append, List.mem_cons, List.mem_singleton, List.not_mem_nil,
      or_false] at hc
    rcases hc with hc | rfl | rfl | hc | rfl
    · exact hattrgt c hc
    · decide
    · decide
    · exact goodUrl_gt (hu c hc)
    · decide
  have hzws : ∀ c t, ('>' :: (inner ++ ('<' :: '/' :: (tag ++ ['>'])))) = c :: t →
      isJsWhitespace c = false := by
    intro c t h
    injection h with h1 _
    rw [← h1]
    decide
  have hzgt : ∀ c t, ('>' :: (inner ++ ('<' :: '/' :: (tag ++ ['>'])))) = c :: t → c = '>' := by
    intro c t h
    injection h with h1 _
    exact h1.symm
  have hma : matchAttr attr ((' ' :: ((attr ++ ('=' :: '"' :: (u ++ ['"']))) ++
      ('>' :: (inner ++ ('<' :: '/' :: (tag ++ ['>']))))))) =
      some (u, attr.length + u.length + 4) := by
    rw [← hbody]
    exact matchAttr_hit attr u ('>' :: (inner ++ ('<' :: '/' :: (tag ++ ['>']))))
      hattrl hne (fun c hc => goodUrl_q (hu c hc))
  have hdropn : ((' ' :: ((attr ++ ('=' :: '"' :: (u ++ ['"']))) ++
      ('>' :: (inner ++ ('<' :: '/' :: (tag ++ ['>']))))))).drop
      (attr.length + u.length + 4) =
      '>' :: (inner ++ ('<' :: '/' :: (tag ++ ['>']))) := by
    rw [← hbody]
    exact s1_drop_after attr u ('>' :: (inner ++ ('<' :: '/' :: (tag ++ ['>']))))
  have hsw := startsWithCI_tag tag (' ' :: (attr ++ ('=' :: '"' :: (u ++
    ('"' :: '>' :: (inner ++ ('<' :: '/' :: (tag ++ ['>'])))))))) htag
  simp only [matchTagAt, hsw, if_true, drop_tag]
  rw [hbody]
  rw [run_length_eval _ _ hwgt hzgt]
  rw [searchX_skip attr _ _ _ (skip_all attr _ _ hwws hzws)]
  simp only [searchX, hma, hdropn, closeA_hit tag inner htag hinner]

theorem matchTagAt_hit_open (tag attr u after0 : List Char)
    (htag : ∀ c ∈ tag, lower c = c)
    (hattrl : ∀ c ∈ attr, lower c = c)
    (hattrws : ∀ c ∈ attr, isJsWhitespace c = false)
    (hattrgt : ∀ c ∈ attr, (decide (c ≠ '>')) = true)
    (hne : u ≠ []) (hu : ∀ c ∈ u, goodUrlChar c = true) :
    matchTagAt tag attr false
      ('<' :: (tag ++ (' ' :: (attr ++ ('=' :: '"' :: (u ++ ('"' :: '>' :: after0))))))) =
      some (u, attr.length + u.length + 4 + 1) := by
  have hbody : attr ++ ('=' :: '"' :: (u ++ ('"' :: '>' :: after0))) =
      (attr ++ ('=' :: '"' :: (u ++ ['"']))) ++ ('>' :: after0) := by
    simp [List.append_assoc]
  have hwws : ∀ c ∈ attr ++ ('=' :: '"' :: (u ++ ['"'])), isJsWhitespace c = false := by
    intro c hc
    simp only [List.mem_append, List.mem_cons, List.mem_singleton, List.not_mem_nil,
      or_false] at hc
    rcases hc with hc | rfl | rfl | hc | rfl
    · exact hattrws c hc
    · decide
    · decide
    · exact goodUrl_ws (hu c hc)
    · decide
  have hwgt : ∀ c ∈ attr ++ ('=' :: '"' :: (u ++ ['"'])), (decide (c ≠ '>')) = true := by
    intro c hc
    simp only [List.mem_append, List.mem_cons, List.mem_singleton, List.not_mem_nil,
      or_false] at hc
    rcases hc with hc | rfl | rfl | hc | rfl
    · exact hattrgt c hc
    · decide
    · decide
    · exact goodUrl_gt (hu c hc)
    · decide
  have hzws : ∀ c t, ('>' :: after0) = c :: t → isJsWhitespace c = false := by
    intro c t h
    injection h with h1 _
    rw [← h1]
    decide
  have hzgt : ∀ c t, ('>' :: after0) = c :: t → c = '>' := by
    intro c t h
    injection h with h1 _
    exact h1.symm
  have hma : matchAttr attr ((' ' :: ((attr ++ ('=' :: '"' :: (u ++ ['"']))) ++
      ('>' :: after0)))) = some (u, attr.length + u.length + 4) := by
    rw [← hbody]
    exact matchAttr_hit attr u ('>' :: after0) hattrl hne (fun c hc => goodUrl_q (hu c hc))
  have hdropn : ((' ' :: ((attr ++ ('=' :: '"' :: (u ++ ['"']))) ++ ('>' :: after0)))).drop
      (attr.length + u.length + 4) = '>' :: after0 := by
    rw [← hbody]
    exact s1_drop_after attr u ('>' :: after0)
  have hsw := startsWithCI_tag tag
    (' ' :: (attr ++ ('=' :: '"' :: (u ++ ('"' :: '>' :: after0))))) htag
  simp only [matchTagAt, hsw, if_true, drop_tag]
  rw [hbody]
  rw [run_length_eval _ _ hwgt hzgt]
  rw [searchX_skip attr _ _ _ (skip_all attr _ _ hwws hzws)]
  simp only [searchX, hma, hdropn, Bool.false_eq_true, if_false, closeB_gt after0]

theorem matchTagAt_hit_selfclose (tag attr u : List Char)
    (htag : ∀ c ∈ tag, lower c = c)
    (hattrl : ∀ c ∈ attr, lower c = c)
    (hattrws : ∀ c ∈ attr, isJsWhitespace c = false)
    (hattrgt : ∀ c ∈ attr, (decide (c ≠ '>')) = true)
    (hne : u ≠ []) (hu : ∀ c ∈ u, goodUrlChar c = true) :
    matchTagAt tag attr false
      ('<' :: (tag ++ (' ' :: (attr ++ ('=' :: '"' :: (u ++ ('"' :: '/' :: '>' :: []))))))) =
      some (u, attr.length + u.length + 4 + 2) := by
  have hbody : attr ++ ('=' :: '"' :: (u ++ ('"' :: '/' :: '>' :: []))) =
      (attr ++ ('=' :: '"' :: (u ++ ['"', '/']))) ++ ['>'] := by
    simp [List.append_assoc]
  have hwws : ∀ c ∈ attr ++ ('=' :: '"' :: (u ++ ['"', '/'])), isJsWhitespace c = false := by
    intro c hc
    simp only [List.mem_append, List.mem_cons, List.mem_singleton, List.not_mem_nil,
      or_false] at hc
    rcases hc with hc | rfl | rfl | hc | rfl | rfl
    · exact hattrws c hc
    · decide
    · decide
    · exact goodUrl_ws (hu c hc)
    · decide
    · decide
  have hwgt : ∀ c ∈ attr ++ ('=' :: '"' :: (u ++ ['"', '/'])), (decide (c ≠ '>')) = true := by
    intro c hc
    simp only [List.mem_append, List.mem_cons, List.mem_singleton, List.not_mem_nil,
      or_false] at hc
    rcases hc with hc | rfl | rfl | hc | rfl | rfl
    · exact hattrgt c hc
    · decide
    · decide
    · exact goodUrl_gt (hu c hc)
    · decide
    · decide
  have hzws : ∀ c t, (['>'] : List Char) = c :: t → isJsWhitespace c = false := by
    intro c t h
    injection h with h1 _
    rw [← h1]
    decide
  have hzgt : ∀ c t, (['>'] : List Char) = c :: t → c = '>' := by
    intro c t h
    injection h with h1 _
    exact h1.symm
  have hma : matchAttr attr ((' ' :: ((attr ++ ('=' :: '"' :: (u ++ ['"', '/']))) ++ ['>']))) =
      some (u, attr.length + u.length + 4) := by
    rw [← hbody]
    exact matchAttr_hit attr u ('/' :: '>' :: []) hattrl hne (fun c hc => goodUrl_q (hu c hc))
  have hdropn : ((' ' :: ((attr ++ ('=' :: '"' :: (u ++ ['"', '/']))) ++ ['>']))).drop
      (attr.length + u.length + 4) = '/' :: '>' :: [] := by
    rw [← hbody]
    exact s1_drop_after attr u ('/' :: '>' :: [])
  have hsw := startsWithCI_tag tag
    (' ' :: (attr ++ ('=' :: '"' :: (u ++ ('"' :: '/' :: '>' :: []))))) htag
  simp only [matchTagAt, hsw, if_true, drop_tag]
  rw [hbody]
  rw [run_length_eval _ _ hwgt hzgt]
  rw [searchX_skip attr _ _ _ (skip_all attr _ _ hwws hzws)]
  simp only [searchX, hma, hdropn, Bool.false_eq_true, if_false, closeB_slash_gt]

theorem matchTagAt_none_selfclose (tag attr u : List Char)
    (htag : ∀ c ∈ tag, lower c = c)
    (hattrl : ∀ c ∈ attr, lower c = c)
    (hattrws : ∀ c ∈ attr, isJsWhitespace c = false)
    (hattrgt : ∀ c ∈ attr, (decide (c ≠ '>')) = true)
    (hne : u ≠ []) (hu : ∀ c ∈ u, goodUrlChar c = true) :
    matchTagAt tag attr true
      ('<' :: (tag ++ (' ' :: (attr ++ ('=' :: '"' :: (u ++ ('"' :: '/' :: '>' :: []))))))) =
      none := by
  have hbody : attr ++ ('=' :: '"' :: (u ++ ('"' :: '/' :: '>' :: []))) =
      (attr ++ ('=' :: '"' :: (u ++ ['"', '/']))) ++ ['>'] := by
    simp [List.append_assoc]
  have hwws : ∀ c ∈ attr ++ ('=' :: '"' :: (u ++ ['"', '/'])), isJsWhitespace c = false := by
    intro c hc
    simp only [List.mem_append, List.mem_cons, List.mem_singleton, List.not_mem_nil,
      or_false] at hc
    rcases hc with hc | rfl | rfl | hc | rfl | rfl
    · exact hattrws c hc
    · decide
    · decide
    · exact goodUrl_ws (hu c hc)
    · decide
    · decide
  have hwgt : ∀ c ∈ attr ++ ('=' :: '"' :: (u ++ ['"', '/'])), (decide (c ≠ '>')) = true := by
    intro c hc
    simp only [List.mem_append, List.mem_cons, List.mem_singleton, List.not_mem_nil,
      or_false] at hc
    rcases hc with hc | rfl | rfl | hc | rfl | rfl
    · exact hattrgt c hc
    · decide
    · decide
    · exact goodUrl_gt (hu c hc)
    · decide
    · decide
  have hzws : ∀ c t, (['>'] : List Char) = c :: t → isJsWhitespace c = false := by
    intro c t h
    injection h with h1 _
    rw [← h1]
    decide
  have hzgt : ∀ c t, (['>'] : List Char) = c :: t → c = '>' := by
    intro c t h
    injection h with h1 _
    exact h1.symm
  have hma : matchAttr attr ((' ' :: ((attr ++ ('=' :: '"' :: (u ++ ['"', '/']))) ++ ['>']))) =
      some (u, attr.length + u.length + 4) := by
    rw [← hbody]
    exact matchAttr_hit attr u ('/' :: '>' :: []) hattrl hne (fun c hc => goodUrl_q (hu c hc))
  have hdropn : ((' ' :: ((attr ++ ('=' :: '"' :: (u ++ ['"', '/']))) ++ ['>']))).drop
      (attr.length + u.length + 4) = '/' :: '>' :: [] := by
    rw [← hbody]
    exact s1_drop_after attr u ('/' :: '>' :: [])
  have hsw := startsWithCI_tag tag
    (' ' :: (attr ++ ('=' :: '"' :: (u ++ ('"' :: '/' :: '>' :: []))))) htag
  simp only [matchTagAt, hsw, if_true, drop_tag]
  rw [hbody]
  rw [run_length_eval _ _ hwgt hzgt]
  rw [searchX_skip attr _ _ _ (skip_all attr _ _ hwws hzws)]
  simp only [searchX, hma, hdropn, closeA_slash_gt tag]

theorem replaceTag_one (tag attr : List Char) (paired : Bool) (c : Char)
    (rest cap : List Char) (k : Nat)
    (h : matchTagAt tag attr paired (c :: rest) = some (cap, k))
    (hlen : rest.length ≤ tag.length + k) :
    replaceTag tag attr paired (c :: rest) =
      '<' :: 'p' :: '>' :: (cap ++ ('<' :: '/' :: 'p' :: '>' :: [])) := by
  unfold replaceTag
  simp only [List.length_cons, replaceTagF, h]
  rw [List.drop_eq_nil_of_le hlen, replaceTagF_nil]

theorem replaceTag_one_rem (tag attr : List Char) (paired : Bool) (c : Char)
    (rest cap rem : List Char) (k : Nat)
    (h : matchTagAt tag attr paired (c :: rest) = some (cap, k))
    (hdrop : rest.drop (tag.length + k) = rem)
    (hrem : noTagStart ('<' :: tag) rem = true) :
    replaceTag tag attr paired (c :: rest) =
      '<' :: 'p' :: '>' :: (cap ++ ('<' :: '/' :: 'p' :: '>' :: rem)) := by
  unfold replaceTag
  simp only [List.length_cons, replaceTagF, h, hdrop]
  rw [replaceTagF_id tag attr paired rem rest.length hrem]

theorem replaceTag_skip_head (tag attr : List Char) (paired : Bool) (c : Char)
    (rest : List Char)
    (h : matchTagAt tag attr paired (c :: rest) = none)
    (hrest : noTagStart ('<' :: tag) rest = true) :
    replaceTag tag attr paired (c :: rest) = c :: rest := by
  unfold replaceTag
  simp only [List.length_cons, replaceTagF, h]
  rw [replaceTagF_id tag attr paired rest rest.length hrest]

theorem noTagStart_out (t0' : Char) (p' : List Char) (u tail : List Char)
    (hp : (decide (lower 'p' = t0')) = false)
    (hsl : (decide (lower '/' = t0')) = false)
    (hu : ∀ c ∈ u, (decide (lower c = '<')) = false)
    (htail : noTagStart ('<' :: t0' :: p') tail = true) :
    noTagStart ('<' :: t0' :: p')
      ('<' :: 'p' :: '>' :: (u ++ ('<' :: '/' :: 'p' :: '>' :: tail))) = true := by
  rw [noTagStart_cons_fail (startsWithCI_cons2_false hp)]
  rw [noTagStart_cons_nonlt (by decide)]
  rw [noTagStart_cons_nonlt (by decide)]
  rw [noTagStart_append_nonlt u _ hu]
  rw [noTagStart_cons_fail (startsWithCI_cons2_false hsl)]
  rw [noTagStart_cons_nonlt (by decide)]
  rw [noTagStart_cons_nonlt (by decide)]
  rw [noTagStart_cons_nonlt (by decide)]
  exact htail

theorem noTagStart_sA (t0' : Char) (p' : List Char) (t1 : Char) (T' A u inner : List Char)
    (h1 : (decide (lower t1 = t0')) = false)
    (hsl : (decide (lower '/' = t0')) = false)
    (hT : ∀ c ∈ t1 :: T', (decide (lower c = '<')) = false)
    (hA : ∀ c ∈ A, (decide (lower c = '<')) = false)
    (hu : ∀ c ∈ u, (decide (lower c = '<')) = false)
    (hinner : ∀ c ∈ inner, (decide (lower c = '<')) = false) :
    noTagStart ('<' :: t0' :: p')
      ('<' :: ((t1 :: T') ++ (' ' :: (A ++ ('=' :: '"' :: (u ++
        ('"' :: '>' :: (inner ++ ('<' :: '/' :: ((t1 :: T') ++ ['>'])))))))))) = true := by
  have hsw1 : startsWithCI ('<' :: t0' :: p')
      ('<' :: ((t1 :: T') ++ (' ' :: (A ++ ('=' :: '"' :: (u ++
        ('"' :: '>' :: (inner ++ ('<' :: '/' :: ((t1 :: T') ++ ['>']))))))))))  = false := by
    rw [List.cons_append]
    exact startsWithCI_cons2_false h1
  rw [noTagStart_cons_fail hsw1]
  rw [noTagStart_append_nonlt (t1 :: T') _ hT]
  rw [noTagStart_cons_nonlt (by decide)]
  rw [noTagStart_append_nonlt A _ hA]
  rw [noTagStart_cons_nonlt (by decide)]
  rw [noTagStart_cons_nonlt (by decide)]
  rw [noTagStart_append_nonlt u _ hu]
  rw [noTagStart_cons_nonlt (by decide)]
  rw [noTagStart_cons_nonlt (by decide)]
  rw [noTagStart_append_nonlt inner _ hinner]
  rw [noTagStart_cons_fail (startsWithCI_cons2_false hsl)]
  rw [noTagStart_cons_nonlt (by decide)]
  rw [noTagStart_append_nonlt (t1 :: T') _ hT]
  rw [noTagStart_cons_nonlt (by decide)]
  rfl

theorem noTagStart_sB (t0' : Char) (p' : List Char) (t1 : Char) (T' A u : List Char)
    (h1 : (decide (lower t1 = t0')) = false)
    (hT : ∀ c ∈ t1 :: T', (decide (lower c = '<')) = false)
    (hA : ∀ c ∈ A, (decide (lower c = '<')) = false)
    (hu : ∀ c ∈ u, (decide (lower c = '<')) = false) :
    noTagStart ('<' :: t0' :: p')
      ('<' :: ((t1 :: T') ++ (' ' :: (A ++ ('=' :: '"' :: (u ++
        ('"' :: '/' :: '>' :: []))))))) = true := by
  have hsw1 : startsWithCI ('<' :: t0' :: p')
      ('<' :: ((t1 :: T') ++ (' ' :: (A ++ ('=' :: '"' :: (u ++
        ('"' :: '/' :: '>' :: []))))))) = false := by
    rw [List.cons_append]
    exact startsWithCI_cons2_false h1
  rw [noTagStart_cons_fail hsw1]
  rw [noTagStart_append_nonlt (t1 :: T') _ hT]
  rw [noTagStart_cons_nonlt (by decide)]
  rw [noTagStart_append_nonlt A _ hA]
  rw [noTagStart_cons_nonlt (by decide)]
  rw [noTagStart_cons_nonlt (by decide)]
  rw [noTagStart_append_nonlt u _ hu]
  rw [noTagStart_cons_nonlt (by decide)]
  rw [noTagStart_cons_nonlt (by decide)]
  rw [noTagStart_cons_nonlt (by decide)]
  rfl

theorem noTagStart_sOpen (t0' : Char) (p' : List Char) (t1 : Char) (T' A u tail0 : List Char)
    (h1 : (decide (lower t1 = t0')) = false)
    (hT : ∀ c ∈ t1 :: T', (decide (lower c = '<')) = false)
    (hA : ∀ c ∈ A, (decide (lower c = '<')) = false)
    (hu : ∀ c ∈ u, (decide (lower c = '<')) = false)
    (htail : noTagStart ('<' :: t0' :: p') tail0 = true) :
    noTagStart ('<' :: t0' :: p')
      ('<' :: ((t1 :: T') ++ (' ' :: (A ++ ('=' :: '"' :: (u ++
        ('"' :: '>' :: tail0))))))) = true := by
  have hsw1 : startsWithCI ('<' :: t0' :: p')
      ('<' :: ((t1 :: T') ++ (' ' :: (A ++ ('=' :: '"' :: (u ++
        ('"' :: '>' :: tail0))))))) = false := by
    rw [List.cons_append]
    exact startsWithCI_cons2_false h1
  rw [noTagStart_cons_fail hsw1]
  rw [noTagStart_append_nonlt (t1 :: T') _ hT]
  rw [noTagStart_cons_nonlt (by decide)]
  rw [noTagStart_append_nonlt A _ hA]
  rw [noTagStart_cons_nonlt (by decide)]
  rw [noTagStart_cons_nonlt (by decide)]
  rw [noTagStart_append_nonlt u _ hu]
  rw [noTagStart_cons_nonlt (by decide)]
  rw [noTagStart_cons_nonlt (by decide)]
  exact htail

theorem restB_no_lt (T A u : List Char)
    (hT : ∀ c ∈ T, (decide (lower c = '<')) = false)
    (hA : ∀ c ∈ A, (decide (lower c = '<')) = false)
    (hu : ∀ c ∈ u, (decide (lower c = '<')) = false) :
    ∀ c ∈ T ++ (' ' :: (A ++ ('=' :: '"' :: (u ++ ('"' :: '/' :: '>' :: []))))),
      (decide (lower c = '<')) = false := by
  intro c hc
  simp only [List.mem_append, List.mem_cons, List.not_mem_nil, or_false] at hc
  rcases hc with hc | rfl | hc | rfl | rfl | hc | rfl | rfl | rfl
  · exact hT c hc
  · decide
  · exact hA c hc
  · decide
  · decide
  · exact hu c hc
  · decide
  · decide
  · decide

/-- Claim C4 (counterexample): on a paired embed element
`<embed src="u">hi</embed>` the pre-processing pass only replaces the
opening tag, leaving the inner content and the closing tag behind, so
the element is not replaced by the bare paragraph `<p>u</p>` that the
claim asserts for the paired form of all five tag families. -/
theorem extractMediaUrls_embed_paired_counterexample :
    extractMediaUrls (("<embed src=\"u\">hi</embed>".toList)) =
      (("<p>u</p>hi</embed>".toList)) ∧
    (("<p>u</p>hi</embed>".toList)) ≠ (("<p>u</p>".toList)) := by
  constructor
  · decide
  · decide

/-- Claim C4 (amended): for each of the five media families,
`extractMediaUrls` replaces the paired form and the self-closing form of
iframe, object, video and audio elements (address attribute `src`, for
object `data`) by a paragraph wrapping only the attribute value, and
replaces the opening tag of an embed element; for a paired embed element
only the opening tag is replaced, so the inner content and the closing
`</embed>` tag remain in the output after the paragraph; elements of
these kinds without the address attribute are left completely
unmodified.  The address value may be any nonempty string of characters
that are not whitespace, quotes, `>`, or characters lower-casing to
`<`. -/
theorem extractMediaUrls_media_replacement (u : List Char)
    (hne : u ≠ []) (hu : ∀ c ∈ u, goodUrlChar c = true) :
    extractMediaUrls (("<iframe src=\"".toList) ++ (u ++ ("\">X</iframe>".toList))) =
      ("<p>".toList) ++ (u ++ ("</p>".toList)) ∧
    extractMediaUrls (("<iframe src=\"".toList) ++ (u ++ ("\"/>".toList))) =
      ("<p>".toList) ++ (u ++ ("</p>".toList)) ∧
    extractMediaUrls (("<object data=\"".toList) ++ (u ++ ("\">X</object>".toList))) =
      ("<p>".toList) ++ (u ++ ("</p>".toList)) ∧
    extractMediaUrls (("<object data=\"".toList) ++ (u ++ ("\"/>".toList))) =
      ("<p>".toList) ++ (u ++ ("</p>".toList)) ∧
    extractMediaUrls (("<embed src=\"".toList) ++ (u ++ ("\"/>".toList))) =
      ("<p>".toList) ++ (u ++ ("</p>".toList)) ∧
    extractMediaUrls (("<video src=\"".toList) ++ (u ++ ("\">X</video>".toList))) =
      ("<p>".toList) ++ (u ++ ("</p>".toList)) ∧
    extractMediaUrls (("<video src=\"".toList) ++ (u ++ ("\"/>".toList))) =
      ("<p>".toList) ++ (u ++ ("</p>".toList)) ∧
    extractMediaUrls (("<audio src=\"".toList) ++ (u ++ ("\">X</audio>".toList))) =
      ("<p>".toList) ++ (u ++ ("</p>".toList)) ∧
    extractMediaUrls (("<audio src=\"".toList) ++ (u ++ ("\"/>".toList))) =
      ("<p>".toList) ++ (u ++ ("</p>".toList)) ∧
    extractMediaUrls (("<embed src=\"".toList) ++ (u ++ ("\">X</embed>".toList))) =
      ("<p>".toList) ++ (u ++ ("</p>X</embed>".toList)) ∧
    extractMediaUrls (("<iframe>X</iframe>".toList)) =
      ("<iframe>X</iframe>".toList) ∧
    extractMediaUrls (("<object>X</object>".toList)) =
      ("<object>X</object>".toList) ∧
    extractMediaUrls (("<embed>".toList)) =
      ("<embed>".toList) ∧
    extractMediaUrls (("<video controls>v</video>".toList)) =
      ("<video controls>v</video>".toList) ∧
    extractMediaUrls (("<audio></audio>".toList)) =
      ("<audio></audio>".toList) := by
  have hu_lt : ∀ c ∈ u, (decide (lower c = '<')) = false :=
    fun c hc => goodUrl_lt (hu c hc)
  have hout_i : noTagStart ('<' :: ("iframe".toList))
      ('<' :: 'p' :: '>' :: (u ++ ('<' :: '/' :: 'p' :: '>' :: []))) = true :=
    noTagStart_out 'i' ("frame".toList) u [] (by decide) (by decide) hu_lt rfl
  have hout_o : noTagStart ('<' :: ("object".toList))
      ('<' :: 'p' :: '>' :: (u ++ ('<' :: '/' :: 'p' :: '>' :: []))) = true :=
    noTagStart_out 'o' ("bject".toList) u [] (by decide) (by decide) hu_lt rfl
  have hout_e : noTagStart ('<' :: ("embed".toList))
      ('<' :: 'p' :: '>' :: (u ++ ('<' :: '/' :: 'p' :: '>' :: []))) = true :=
    noTagStart_out 'e' ("mbed".toList) u [] (by decide) (by decide) hu_lt rfl
  have hout_v : noTagStart ('<' :: ("video".toList))
      ('<' :: 'p' :: '>' :: (u ++ ('<' :: '/' :: 'p' :: '>' :: []))) = true :=
    noTagStart_out 'v' ("ideo".toList) u [] (by decide) (by decide) hu_lt rfl
  have hout_a : noTagStart ('<' :: ("audio".toList))
      ('<' :: 'p' :: '>' :: (u ++ ('<' :: '/' :: 'p' :: '>' :: []))) = true :=
    noTagStart_out 'a' ("udio".toList) u [] (by decide) (by decide) hu_lt rfl
  refine ⟨?_, ?_, ?_, ?_, ?_, ?_, ?_, ?_, ?_, ?_, ?_, ?_, ?_, ?_, ?_⟩
  · show extractMediaUrls
        ('<' :: (("iframe".toList) ++ (' ' :: (("src".toList) ++ ('=' :: '"' :: (u ++
          ('"' :: '>' :: (("X".toList) ++ ('<' :: '/' :: (("iframe".toList) ++ ['>'])))))))))) =
      '<' :: 'p' :: '>' :: (u ++ ('<' :: '/' :: 'p' :: '>' :: []))
    unfold extractMediaUrls
    rw [replaceTag_one ("iframe".toList) ("src".toList) true '<'
      (("iframe".toList) ++ (' ' :: (("src".toList) ++ ('=' :: '"' :: (u ++
        ('"' :: '>' :: (("X".toList) ++ ('<' :: '/' :: (("iframe".toList) ++ ['>'])))))))))
      u (("src".toList).length + u.length + 4 +
        (1 + ("X".toList).length + (("iframe".toList).length + 3)))
      (matchTagAt_hit_A ("iframe".toList) ("src".toList) u ("X".toList)
        (by decide) (by decide) (by decide) (by decide) hne hu (by decide))
      (by
        simp only [List.length_append, List.length_cons, List.length_nil,
          show (("iframe".toList)).length = 6 from rfl,
          show (("src".toList)).length = 3 from rfl,
          show (("X".toList)).length = 1 from rfl]
        omega)]
    rw [replaceTag_id hout_i, replaceTag_id hout_o, replaceTag_id hout_o, replaceTag_id hout_e]
    rw [replaceTag_id hout_v, replaceTag_id hout_v, replaceTag_id hout_a, replaceTag_id hout_a]
  · show extractMediaUrls
        ('<' :: (("iframe".toList) ++ (' ' :: (("src".toList) ++ ('=' :: '"' :: (u ++
          ('"' :: '/' :: '>' :: []))))))) =
      '<' :: 'p' :: '>' :: (u ++ ('<' :: '/' :: 'p' :: '>' :: []))
    unfold extractMediaUrls
    rw [replaceTag_skip_head ("iframe".toList) ("src".toList) true '<'
      (("iframe".toList) ++ (' ' :: (("src".toList) ++ ('=' :: '"' :: (u ++
        ('"' :: '/' :: '>' :: []))))))
      (matchTagAt_none_selfclose ("iframe".toList) ("src".toList) u
        (by decide) (by decide) (by decide) (by decide) hne hu)
      (noTagStart_no_lt _ (restB_no_lt ("iframe".toList) ("src".toList) u
        (by decide) (by decide) hu_lt))]
    rw [replaceTag_one ("iframe".toList) ("src".toList) false '<'
      (("iframe".toList) ++ (' ' :: (("src".toList) ++ ('=' :: '"' :: (u ++
        ('"' :: '/' :: '>' :: []))))))
      u (("src".toList).length + u.length + 4 + 2)
      (matchTagAt_hit_selfclose ("iframe".toList) ("src".toList) u
        (by decide) (by decide) (by decide) (by decide) hne hu)
      (by
        simp only [List.length_append, List.length_cons, List.length_nil,
          show (("iframe".toList)).length = 6 from rfl,
          show (("src".toList)).length = 3 from rfl]
        omega)]
    rw [replaceTag_id hout_o, replaceTag_id hout_o, replaceTag_id hout_e, replaceTag_id hout_v]
    rw [replaceTag_id hout_v, replaceTag_id hout_a, replaceTag_id hout_a]
  · have hS_i : noTagStart ('<' :: ("iframe".toList))
        ('<' :: (("object".toList) ++ (' ' :: (("data".toList) ++ ('=' :: '"' :: (u ++
          ('"' :: '>' :: (("X".toList) ++ ('<' :: '/' :: (("object".toList) ++ ['>'])))))))))) = true :=
      noTagStart_sA 'i' ("frame".toList) 'o' ("bject".toList) ("data".toList) u ("X".toList)
        (by decide) (by decide) (by decide) (by decide) hu_lt (by decide)
    show extractMediaUrls
        ('<' :: (("object".toList) ++ (' ' :: (("data".toList) ++ ('=' :: '"' :: (u ++
          ('"' :: '>' :: (("X".toList) ++ ('<' :: '/' :: (("object".toList) ++ ['>'])))))))))) =
      '<' :: 'p' :: '>' :: (u ++ ('<' :: '/' :: 'p' :: '>' :: []))
    unfold extractMediaUrls
    rw [replaceTag_id hS_i, replaceTag_id hS_i]
    rw [replaceTag_one ("object".toList) ("data".toList) true '<'
      (("object".toList) ++ (' ' :: (("data".toList) ++ ('=' :: '"' :: (u ++
        ('"' :: '>' :: (("X".toList) ++ ('<' :: '/' :: (("object".toList) ++ ['>'])))))))))
      u (("data".toList).length + u.length + 4 +
        (1 + ("X".toList).length + (("object".toList).length + 3)))
      (matchTagAt_hit_A ("object".toList) ("data".toList) u ("X".toList)
        (by decide) (by decide) (by decide) (by decide) hne hu (by decide))
      (by
        simp only [List.length_append, List.length_cons, List.length_nil,
          show (("object".toList)).length = 6 from rfl,
          show (("data".toList)).length = 4 from rfl,
          show (("X".toList)).length = 1 from rfl]
        omega)]
    rw [replaceTag_id hout_o, replaceTag_id hout_e, replaceTag_id hout_v, replaceTag_id hout_v]
    rw [replaceTag_id hout_a, replaceTag_id hout_a]
  · have hS_i : noTagStart ('<' :: ("iframe".toList))
        ('<' :: (("object".toList) ++ (' ' :: (("data".toList) ++ ('=' :: '"' :: (u ++
          ('"' :: '/' :: '>' :: []))))))) = true :=
      noTagStart_sB 'i' ("frame".toList) 'o' ("bject".toList) ("data".toList) u
        (by decide) (by decide) (by decide) hu_lt
    show extractMediaUrls
        ('<' :: (("object".toList) ++ (' ' :: (("data".toList) ++ ('=' :: '"' :: (u ++
          ('"' :: '/' :: '>' :: []))))))) =
      '<' :: 'p' :: '>' :: (u ++ ('<' :: '/' :: 'p' :: '>' :: []))
    unfold extractMediaUrls
    rw [replaceTag_id hS_i, replaceTag_id hS_i]
    rw [replaceTag_skip_head ("object".toList) ("data".toList) true '<'
      (("object".toList) ++ (' ' :: (("data".toList) ++ ('=' :: '"' :: (u ++
        ('"' :: '/' :: '>' :: []))))))
      (matchTagAt_none_selfclose ("object".toList) ("data".toList) u
        (by decide) (by decide) (by decide) (by decide) hne hu)
      (noTagStart_no_lt _ (restB_no_lt ("object".toList) ("data".toList) u
        (by decide) (by decide) hu_lt))]
    rw [replaceTag_one ("object".toList) ("data".toList) false '<'
      (("object".toList) ++ (' ' :: (("data".toList) ++ ('=' :: '"' :: (u ++
        ('"' :: '/' :: '>' :: []))))))
      u (("data".toList).length + u.length + 4 + 2)
      (matchTagAt_hit_selfclose ("object".toList) ("data".toList) u
        (by decide) (by decide) (by decide) (by decide) hne hu)
      (by
        simp only [List.length_append, List.length_cons, List.length_nil,
          show (("object".toList)).length = 6 from rfl,
          show (("data".toList)).length = 4 from rfl]
        omega)]
    rw [replaceTag_id hout_e, replaceTag_id hout_v, replaceTag_id hout_v, replaceTag_id hout_a]
    rw [replaceTag_id hout_a]
  · have hS_i : noTagStart ('<' :: ("iframe".toList))
        ('<' :: (("embed".toList) ++ (' ' :: (("src".toList) ++ ('=' :: '"' :: (u ++
          ('"' :: '/' :: '>' :: []))))))) = true :=
      noTagStart_sB 'i' ("frame".toList) 'e' ("mbed".toList) ("src".toList) u
        (by decide) (by decide) (by decide) hu_lt
    have hS_o : noTagStart ('<' :: ("object".toList))
        ('<' :: (("embed".toList) ++ (' ' :: (("src".toList) ++ ('=' :: '"' :: (u ++
          ('"' :: '/' :: '>' :: []))))))) = true :=
      noTagStart_sB 'o' ("bject".toList) 'e' ("mbed".toList) ("src".toList) u
        (by decide) (by decide) (by decide) hu_lt
    show extractMediaUrls
        ('<' :: (("embed".toList) ++ (' ' :: (("src".toList) ++ ('=' :: '"' :: (u ++
          ('"' :: '/' :: '>' :: []))))))) =
      '<' :: 'p' :: '>' :: (u ++ ('<' :: '/' :: 'p' :: '>' :: []))
    unfold extractMediaUrls
    rw [replaceTag_id hS_i, replaceTag_id hS_i, replaceTag_id hS_o, replaceTag_id hS_o]
    rw [replaceTag_one ("embed".toList) ("src".toList) false '<'
      (("embed".toList) ++ (' ' :: (("src".toList) ++ ('=' :: '"' :: (u ++
        ('"' :: '/' :: '>' :: []))))))
      u (("src".toList).length + u.length + 4 + 2)
      (matchTagAt_hit_selfclose ("embed".toList) ("src".toList) u
        (by decide) (by decide) (by decide) (by decide) hne hu)
      (by
        simp only [List.length_append, List.length_cons, List.length_nil,
          show (("embed".toList)).length = 5 from rfl,
          show (("src".toList)).length = 3 from rfl]
        omega)]
    rw [replaceTag_id hout_v, replaceTag_id hout_v, replaceTag_id hout_a, replaceTag_id hout_a]
  · have hS_i : noTagStart ('<' :: ("iframe".toList))
        ('<' :: (("video".toList) ++ (' ' :: (("src".toList) ++ ('=' :: '"' :: (u ++
          ('"' :: '>' :: (("X".toList) ++ ('<' :: '/' :: (("video".toList) ++ ['>'])))))))))) = true :=
      noTagStart_sA 'i' ("frame".toList) 'v' ("ideo".toList) ("src".toList) u ("X".toList)
        (by decide) (by decide) (by decide) (by decide) hu_lt (by decide)
    have hS_o : noTagStart ('<' :: ("object".toList))
        ('<' :: (("video".toList) ++ (' ' :: (("src".toList) ++ ('=' :: '"' :: (u ++
          ('"' :: '>' :: (("X".toList) ++ ('<' :: '/' :: (("video".toList) ++ ['>'])))))))))) = true :=
      noTagStart_sA 'o' ("bject".toList) 'v' ("ideo".toList) ("src".toList) u ("X".toList)
        (by decide) (by decide) (by decide) (by decide) hu_lt (by decide)
    have hS_e : noTagStart ('<' :: ("embed".toList))
        ('<' :: (("video".toList) ++ (' ' :: (("src".toList) ++ ('=' :: '"' :: (u ++
          ('"' :: '>' :: (("X".toList) ++ ('<' :: '/' :: (("video".toList) ++ ['>'])))))))))) = true :=
      noTagStart_sA 'e' ("mbed".toList) 'v' ("ideo".toList) ("src".toList) u ("X".toList)
        (by decide) (by decide) (by decide) (by decide) hu_lt (by decide)
    show extractMediaUrls
        ('<' :: (("video".toList) ++ (' ' :: (("src".toList) ++ ('=' :: '"' :: (u ++
          ('"' :: '>' :: (("X".toList) ++ ('<' :: '/' :: (("video".toList) ++ ['>'])))))))))) =
      '<' :: 'p' :: '>' :: (u ++ ('<' :: '/' :: 'p' :: '>' :: []))
    unfold extractMediaUrls
    rw [replaceTag_id hS_i, replaceTag_id hS_i, replaceTag_id hS_o, replaceTag_id hS_o]
    rw [replaceTag_id hS_e]
    rw [replaceTag_one ("video".toList) ("src".toList) true '<'
      (("video".toList) ++ (' ' :: (("src".toList) ++ ('=' :: '"' :: (u ++
        ('"' :: '>' :: (("X".toList) ++ ('<' :: '/' :: (("video".toList) ++ ['>'])))))))))
      u (("src".toList).length + u.length + 4 +
        (1 + ("X".toList).length + (("video".toList).length + 3)))
      (matchTagAt_hit_A ("video".toList) ("src".toList) u ("X".toList)
        (by decide) (by decide) (by decide) (by decide) hne hu (by decide))
      (by
        simp only [List.length_append, List.length_cons, List.length_nil,
          show (("video".toList)).length = 5 from rfl,
          show (("src".toList)).length = 3 from rfl,
          show (("X".toList)).length = 1 from rfl]
        omega)]
    rw [replaceTag_id hout_v, replaceTag_id hout_a, replaceTag_id hout_a]
  · have hS_i : noTagStart ('<' :: ("iframe".toList))
        ('<' :: (("video".toList) ++ (' ' :: (("src".toList) ++ ('=' :: '"' :: (u ++
          ('"' :: '/' :: '>' :: []))))))) = true :=
      noTagStart_sB 'i' ("frame".toList) 'v' ("ideo".toList) ("src".toList) u
        (by decide) (by decide) (by decide) hu_lt
    have hS_o : noTagStart ('<' :: ("object".toList))
        ('<' :: (("video".toList) ++ (' ' :: (("src".toList) ++ ('=' :: '"' :: (u ++
          ('"' :: '/' :: '>' :: []))))))) = true :=
      noTagStart_sB 'o' ("bject".toList) 'v' ("ideo".toList) ("src".toList) u
        (by decide) (by decide) (by decide) hu_lt
    have hS_e : noTagStart ('<' :: ("embed".toList))
        ('<' :: (("video".toList) ++ (' ' :: (("src".toList) ++ ('=' :: '"' :: (u ++
          ('"' :: '/' :: '>' :: []))))))) = true :=
      noTagStart_sB 'e' ("mbed".toList) 'v' ("ideo".toList) ("src".toList) u
        (by decide) (by decide) (by decide) hu_lt
    show extractMediaUrls
        ('<' :: (("video".toList) ++ (' ' :: (("src".toList) ++ ('=' :: '"' :: (u ++
          ('"' :: '/' :: '>' :: []))))))) =
      '<' :: 'p' :: '>' :: (u ++ ('<' :: '/' :: 'p' :: '>' :: []))
    unfold extractMediaUrls
    rw [replaceTag_id hS_i, replaceTag_id hS_i, replaceTag_id hS_o, replaceTag_id hS_o]
    rw [replaceTag_id hS_e]
    rw [replaceTag_skip_head ("video".toList) ("src".toList) true '<'
      (("video".toList) ++ (' ' :: (("src".toList) ++ ('=' :: '"' :: (u ++
        ('"' :: '/' :: '>' :: []))))))
      (matchTagAt_none_selfclose ("video".toList) ("src".toList) u
        (by decide) (by decide) (by decide) (by decide) hne hu)
      (noTagStart_no_lt _ (restB_no_lt ("video".toList) ("src".toList) u
        (by decide) (by decide) hu_lt))]
    rw [replaceTag_one ("video".toList) ("src".toList) false '<'
      (("video".toList) ++ (' ' :: (("src".toList) ++ ('=' :: '"' :: (u ++
        ('"' :: '/' :: '>' :: []))))))
      u (("src".toList).length + u.length + 4 + 2)
      (matchTagAt_hit_selfclose ("video".toList) ("src".toList) u
        (by decide) (by decide) (by decide) (by decide) hne hu)
      (by
        simp only [List.length_append, List.length_cons, List.length_nil,
          show (("video".toList)).length = 5 from rfl,
          show (("src".toList)).length = 3 from rfl]
        omega)]
    rw [replaceTag_id hout_a, replaceTag_id hout_a]
  · have hS_i : noTagStart ('<' :: ("iframe".toList))
        ('<' :: (("audio".toList) ++ (' ' :: (("src".toList) ++ ('=' :: '"' :: (u ++
          ('"' :: '>' :: (("X".toList) ++ ('<' :: '/' :: (("audio".toList) ++ ['>'])))))))))) = true :=
      noTagStart_sA 'i' ("frame".toList) 'a' ("udio".toList) ("src".toList) u ("X".toList)
        (by decide) (by decide) (by decide) (by decide) hu_lt (by decide)
    have hS_o : noTagStart ('<' :: ("object".toList))
        ('<' :: (("audio".toList) ++ (' ' :: (("src".toList) ++ ('=' :: '"' :: (u ++
          ('"' :: '>' :: (("X".toList) ++ ('<' :: '/' :: (("audio".toList) ++ ['>'])))))))))) = true :=
      noTagStart_sA 'o' ("bject".toList) 'a' ("udio".toList) ("src".toList) u ("X".toList)
        (by decide) (by decide) (by decide) (by decide) hu_lt (by decide)
    have hS_e : noTagStart ('<' :: ("embed".toList))
        ('<' :: (("audio".toList) ++ (' ' :: (("src".toList) ++ ('=' :: '"' :: (u ++
          ('"' :: '>' :: (("X".toList) ++ ('<' :: '/' :: (("audio".toList) ++ ['>'])))))))))) = true :=
      noTagStart_sA 'e' ("mbed".toList) 'a' ("udio".toList) ("src".toList) u ("X".toList)
        (by decide) (by decide) (by decide) (by decide) hu_lt (by decide)
    have hS_v : noTagStart ('<' :: ("video".toList))
        ('<' :: (("audio".toList) ++ (' ' :: (("src".toList) ++ ('=' :: '"' :: (u ++
          ('"' :: '>' :: (("X".toList) ++ ('<' :: '/' :: (("audio".toList) ++ ['>'])))))))))) = true :=
      noTagStart_sA 'v' ("ideo".toList) 'a' ("udio".toList) ("src".toList) u ("X".toList)
        (by decide) (by decide) (by decide) (by decide) hu_lt (by decide)
    show extractMediaUrls
        ('<' :: (("audio".toList) ++ (' ' :: (("src".toList) ++ ('=' :: '"' :: (u ++
          ('"' :: '>' :: (("X".toList) ++ ('<' :: '/' :: (("audio".toList) ++ ['>'])))))))))) =
      '<' :: 'p' :: '>' :: (u ++ ('<' :: '/' :: 'p' :: '>' :: []))
    unfold extractMediaUrls
    rw [replaceTag_id hS_i, replaceTag_id hS_i, replaceTag_id hS_o, replaceTag_id hS_o]
    rw [replaceTag_id hS_e, replaceTag_id hS_v, replaceTag_id hS_v]
    rw [replaceTag_one ("audio".toList) ("src".toList) true '<'
      (("audio".toList) ++ (' ' :: (("src".toList) ++ ('=' :: '"' :: (u ++
        ('"' :: '>' :: (("X".toList) ++ ('<' :: '/' :: (("audio".toList) ++ ['>'])))))))))
      u (("src".toList).length + u.length + 4 +
        (1 + ("X".toList).length + (("audio".toList).length + 3)))
      (matchTagAt_hit_A ("audio".toList) ("src".toList) u ("X".toList)
        (by decide) (by decide) (by decide) (by decide) hne hu (by decide))
      (by
        simp only [List.length_append, List.length_cons, List.length_nil,
          show (("audio".toList)).length = 5 from rfl,
          show (("src".toList)).length = 3 from rfl,
          show (("X".toList)).length = 1 from rfl]
        omega)]
    rw [replaceTag_id hout_a]
  · have hS_i : noTagStart ('<' :: ("iframe".toList))
        ('<' :: (("audio".toList) ++ (' ' :: (("src".toList) ++ ('=' :: '"' :: (u ++
          ('"' :: '/' :: '>' :: []))))))) = true :=
      noTagStart_sB 'i' ("frame".toList) 'a' ("udio".toList) ("src".toList) u
        (by decide) (by decide) (by decide) hu_lt
    have hS_o : noTagStart ('<' :: ("object".toList))
        ('<' :: (("audio".toList) ++ (' ' :: (("src".toList) ++ ('=' :: '"' :: (u ++
          ('"' :: '/' :: '>' :: []))))))) = true :=
      noTagStart_sB 'o' ("bject".toList) 'a' ("udio".toList) ("src".toList) u
        (by decide) (by decide) (by decide) hu_lt
    have hS_e : noTagStart ('<' :: ("embed".toList))
        ('<' :: (("audio".toList) ++ (' ' :: (("src".toList) ++ ('=' :: '"' :: (u ++
          ('"' :: '/' :: '>' :: []))))))) = true :=
      noTagStart_sB 'e' ("mbed".toList) 'a' ("udio".toList) ("src".toList) u
        (by decide) (by decide) (by decide) hu_lt
    have hS_v : noTagStart ('<' :: ("video".toList))
        ('<' :: (("audio".toList) ++ (' ' :: (("src".toList) ++ ('=' :: '"' :: (u ++
          ('"' :: '/' :: '>' :: []))))))) = true :=
      noTagStart_sB 'v' ("ideo".toList) 'a' ("udio".toList) ("src".toList) u
        (by decide) (by decide) (by decide) hu_lt
    show extractMediaUrls
        ('<' :: (("audio".toList) ++ (' ' :: (("src".toList) ++ ('=' :: '"' :: (u ++
          ('"' :: '/' :: '>' :: []))))))) =
      '<' :: 'p' :: '>' :: (u ++ ('<' :: '/' :: 'p' :: '>' :: []))
    unfold extractMediaUrls
    rw [replaceTag_id hS_i, replaceTag_id hS_i, replaceTag_id hS_o, replaceTag_id hS_o]
    rw [replaceTag_id hS_e, replaceTag_id hS_v, replaceTag_id hS_v]
    rw [replaceTag_skip_head ("audio".toList) ("src".toList) true '<'
      (("audio".toList) ++ (' ' :: (("src".toList) ++ ('=' :: '"' :: (u ++
        ('"' :: '/' :: '>' :: []))))))
      (matchTagAt_none_selfclose ("audio".toList) ("src".toList) u
        (by decide) (by decide) (by decide) (by decide) hne hu)
      (noTagStart_no_lt _ (restB_no_lt ("audio".toList) ("src".toList) u
        (by decide) (by decide) hu_lt))]
    rw [replaceTag_one ("audio".toList) ("src".toList) false '<'
      (("audio".toList) ++ (' ' :: (("src".toList) ++ ('=' :: '"' :: (u ++
        ('"' :: '/' :: '>' :: []))))))
      u (("src".toList).length + u.length + 4 + 2)
      (matchTagAt_hit_selfclose ("audio".toList) ("src".toList) u
        (by decide) (by decide) (by decide) (by decide) hne hu)
      (by
        simp only [List.length_append, List.length_cons, List.length_nil,
          show (("audio".toList)).length = 5 from rfl,
          show (("src".toList)).length = 3 from rfl]
        omega)]
  · have hS_i : noTagStart ('<' :: ("iframe".toList))
        ('<' :: (("embed".toList) ++ (' ' :: (("src".toList) ++ ('=' :: '"' :: (u ++
          ('"' :: '>' :: (("X</embed>".toList))))))))) = true :=
      noTagStart_sOpen 'i' ("frame".toList) 'e' ("mbed".toList) ("src".toList) u
        (("X</embed>".toList)) (by decide) (by decide) (by decide) hu_lt (by decide)
    have hS_o : noTagStart ('<' :: ("object".toList))
        ('<' :: (("embed".toList) ++ (' ' :: (("src".toList) ++ ('=' :: '"' :: (u ++
          ('"' :: '>' :: (("X</embed>".toList))))))))) = true :=
      noTagStart_sOpen 'o' ("bject".toList) 'e' ("mbed".toList) ("src".toList) u
        (("X</embed>".toList)) (by decide) (by decide) (by decide) hu_lt (by decide)
    have hout10_v : noTagStart ('<' :: ("video".toList))
        ('<' :: 'p' :: '>' :: (u ++ ('<' :: '/' :: 'p' :: '>' :: (("X</embed>".toList))))) = true :=
      noTagStart_out 'v' ("ideo".toList) u (("X</embed>".toList))
        (by decide) (by decide) hu_lt (by decide)
    have hout10_a : noTagStart ('<' :: ("audio".toList))
        ('<' :: 'p' :: '>' :: (u ++ ('<' :: '/' :: 'p' :: '>' :: (("X</embed>".toList))))) = true :=
      noTagStart_out 'a' ("udio".toList) u (("X</embed>".toList))
        (by decide) (by decide) hu_lt (by decide)
    show extractMediaUrls
        ('<' :: (("embed".toList) ++ (' ' :: (("src".toList) ++ ('=' :: '"' :: (u ++
          ('"' :: '>' :: (("X</embed>".toList))))))))) =
      '<' :: 'p' :: '>' :: (u ++ ('<' :: '/' :: 'p' :: '>' :: (("X</embed>".toList))))
    unfold extractMediaUrls
    rw [replaceTag_id hS_i, replaceTag_id hS_i, replaceTag_id hS_o, replaceTag_id hS_o]
    rw [replaceTag_one_rem ("embed".toList) ("src".toList) false '<'
      (("embed".toList) ++ (' ' :: (("src".toList) ++ ('=' :: '"' :: (u ++
        ('"' :: '>' :: (("X</embed>".toList))))))))
      u (("X</embed>".toList))
      (("src".toList).length + u.length + 4 + 1)
      (matchTagAt_hit_open ("embed".toList) ("src".toList) u (("X</embed>".toList))
        (by decide) (by decide) (by decide) (by decide) hne hu)
      (by
        rw [show (("embed".toList) ++ (' ' :: (("src".toList) ++ ('=' :: '"' :: (u ++
            ('"' :: '>' :: (("X</embed>".toList)))))))) =
          ((("embed".toList) ++ (' ' :: (("src".toList) ++ ('=' :: '"' :: (u ++ ['"', '>']))))) ++
            (("X</embed>".toList))) from by simp [List.append_assoc]]
        rw [show ("embed".toList).length + (("src".toList).length + u.length + 4 + 1) =
            ((("embed".toList) ++ (' ' :: (("src".toList) ++ ('=' :: '"' :: (u ++ ['"', '>'])))))).length from by
          simp only [List.length_append, List.length_cons, List.length_nil,
            show (("embed".toList)).length = 5 from rfl,
            show (("src".toList)).length = 3 from rfl]
          omega]
        exact List.drop_left _ _)
      (by decide)]
    rw [replaceTag_id hout10_v, replaceTag_id hout10_v, replaceTag_id hout10_a, replaceTag_id hout10_a]
  · decide
  · decide
  · decide
  · decide
  · decide

/-- Witness for the amended claim C4 theorem at the concrete address
value `http://x`: the hypotheses hold, and the first conjunct replaces
the paired iframe element by the wrapped address. -/
theorem extractMediaUrls_media_replacement_witness :
    ("http://x".toList) ≠ [] ∧
    (∀ c ∈ ("http://x".toList), goodUrlChar c = true) ∧
    extractMediaUrls (("<iframe src=\"".toList) ++ (("http://x".toList) ++
      ("\">X</iframe>".toList))) =
      ("<p>".toList) ++ (("http://x".toList) ++ ("</p>".toList)) :=
  ⟨by decide, by decide,
    (extractMediaUrls_media_replacement ("http://x".toList) (by decide) (by decide)).1⟩

/-- Claim C6 (counterexample to the unconditional form of the claim):
when the renderer throws, `htmlToMarkdown` returns the input verbatim,
so an input with a double space reaches the output unchanged and the
space invariant fails; the invariant holds only on inputs whose
rendering stage succeeds. -/
theorem htmlToMarkdownStr_space_counterexample :
    htmlToMarkdownStr (fun _ => Except.error ()) (("a  b".toList)) = ("a  b".toList) ∧
    noDoubleSpace (htmlToMarkdownStr (fun _ => Except.error ()) (("a  b".toList))) = false :=
  ⟨rfl, by decide⟩

/-- Claim C7 (counterexample to the unconditional form of the claim):
when the renderer throws, an input with a run of three newlines is
returned verbatim, so the newline invariant fails; it holds only on
inputs whose rendering stage succeeds. -/
theorem htmlToMarkdownStr_newline_counterexample :
    htmlToMarkdownStr (fun _ => Except.error ()) (("a\n\n\nb".toList)) = ("a\n\n\nb".toList) ∧
    noTripleNewline (htmlToMarkdownStr (fun _ => Except.error ())
      (("a\n\n\nb".toList))) = false :=
  ⟨rfl, by decide⟩

/-- Claim C8 (counterexample to the unconditional form of the claim):
when the renderer throws, an input with a soft hyphen (a Cf character)
is returned verbatim, so the no-invisible-characters invariant fails; it
holds only on inputs whose rendering stage succeeds. -/
theorem htmlToMarkdownStr_invisible_counterexample :
    htmlToMarkdownStr (fun _ => Except.error ()) (("a\u00ADb".toList)) = ("a\u00ADb".toList) ∧
    ((htmlToMarkdownStr (fun _ => Except.error ()) (("a\u00ADb".toList))).all
      (fun c => !isCf c && decide (c.toNat ≠ 0x34F))) = false :=
  ⟨rfl, by decide⟩

end HtmlTransform
